import Mathlib

/-!
Shallow embedding of the Stellar Accord law system
(`app/services/law_system_service.py`, `app/config/law_system.py`,
`app/api/endpoints/laws.py`, `app/crud/law.py`).

Python dictionaries are embedded as insertion-ordered association lists,
Python numbers as rationals, and fallible operations (`float(...)`,
`int(...)` on unparsable input) as `Option`-valued functions.
-/

/-- A Python value that can appear as a law parameter value.
Strings that Python `float()` accepts are encoded by `intStr` (integral,
`int()` also accepts them) or `fracStr` (fractional, `int()` raises),
carrying their parsed numeric value, since the embedding does not
re-implement Python's numeric literal grammar; `str` encodes a string on
which `float()` raises.  `num` is a Python number together with its `str()`
rendering.  `strList` is a list of strings. -/
inductive PValue where
  | str (s : String)
  | intStr (s : String) (n : ℤ)
  | fracStr (s : String) (q : ℚ)
  | num (rep : String) (q : ℚ)
  | strList (elts : List String)
  deriving DecidableEq

/-- Python `str(value)`.  For lists this is Python's
`"['a', 'b']"`-style rendering. -/
def pyStr : PValue → String
  | .str s => s
  | .intStr s _ => s
  | .fracStr s _ => s
  | .num rep _ => rep
  | .strList [] => "[]"
  | .strList (e :: es) =>
      "['" ++ e ++ (es.foldl (fun acc x => acc ++ "', '" ++ x) "") ++ "']"

/-- Python `float(value)`: `none` means the call raises. -/
def pyFloat : PValue → Option ℚ
  | .str _ => none
  | .intStr _ n => some (n : ℚ)
  | .fracStr _ q => some q
  | .num _ q => some q
  | .strList _ => none

/-- Truncation toward zero, as Python `int()` applied to a float. -/
def ratTrunc (q : ℚ) : ℤ := if 0 ≤ q then ⌊q⌋ else -⌊-q⌋

/-- Python `int(value)`: `none` means the call raises
(non-numeric strings and fractional strings raise). -/
def pyInt : PValue → Option ℤ
  | .str _ => none
  | .intStr _ n => some n
  | .fracStr _ _ => none
  | .num _ q => some (ratTrunc q)
  | .strList _ => none

/-- A Python dict of law parameters: insertion-ordered association list
with (by construction in Python) unique keys. -/
abbrev Params := List (String × PValue)

/-- Python `d.get(k)` / `d[k]` lookup (first match). -/
def pyGet (ps : Params) (k : String) : Option PValue :=
  (ps.find? (fun kv => kv.1 == k)).map (fun kv => kv.2)

/-- One entry of a template's `parameters` list:
`{"name": ..., "type": ..., "min": ..., "max": ...}`.
`min`/`max` are only present on `range` specs; the validator reads them
with defaults `0` and `float("inf")` (`hi = none` stands for the absent
key, i.e. `+inf`). -/
structure ParamSpec where
  name : String
  ptype : String
  lo : Option ℚ := none
  hi : Option ℚ := none
  deriving DecidableEq

/-- A template's `effects` descriptor `{"type": ..., "applies_to": ...}`. -/
structure EffectDesc where
  etype : String
  appliesTo : String
  deriving DecidableEq

/-- A law template from `LawSystemConfig.get_defaults()` (the name
`LawTemplate` mirrors the source class; descriptions are omitted as no
code path reads them).  `effects = none` stands for an empty dict. -/
structure LawTemplate where
  templateId : String
  tname : String
  templateText : String
  tparameters : List ParamSpec
  effects : Option EffectDesc
  category : Option String
  deriving DecidableEq

/-- The default template catalog of `LawSystemConfig.get_defaults()`,
in insertion order. -/
def catalog : List LawTemplate :=
  [ { templateId := "resource_tax_law"
    , tname := "Resource Tax Law"
    , templateText := "Trading of [RESOURCE_TYPE] requires a tax payment of [TAX_PERCENTAGE]% to the Kokoro Conclave treasury."
    , tparameters :=
        [ { name := "RESOURCE_TYPE", ptype := "resource_category" }
        , { name := "TAX_PERCENTAGE", ptype := "range", lo := some 5, hi := some 30 } ]
    , effects := some { etype := "resource_tax", appliesTo := "trade" }
    , category := some "economic" }
  , { templateId := "resource_quota_system"
    , tname := "Resource Quota System"
    , templateText := "All civilizations must contribute [QUOTA_AMOUNT] units of [RESOURCE_TYPE] per round to the [PROGRAM_NAME] initiative."
    , tparameters :=
        [ { name := "QUOTA_AMOUNT", ptype := "range", lo := some 5, hi := some 25 }
        , { name := "RESOURCE_TYPE", ptype := "resource_type" }
        , { name := "PROGRAM_NAME", ptype := "text" } ]
    , effects := some { etype := "resource_quota", appliesTo := "all_civilizations" }
    , category := some "economic" }
  , { templateId := "project_development_ban"
    , tname := "Project Development Ban"
    , templateText := "Development of [PROJECT_NAME] is prohibited without a special license costing [LICENSE_COST] units of [RESOURCE_TYPE]."
    , tparameters :=
        [ { name := "PROJECT_NAME", ptype := "project" }
        , { name := "LICENSE_COST", ptype := "range", lo := some 100, hi := some 300 }
        , { name := "RESOURCE_TYPE", ptype := "resource_type" } ]
    , effects := some { etype := "project_restriction", appliesTo := "specific_project" }
    , category := some "technology" }
  , { templateId := "uber_tech_licensing"
    , tname := "Uber-Tech Component Licensing"
    , templateText := "Production of [UBER_TECH_COMPONENT] requires a license costing [LICENSE_COST] units of [RESOURCE_TYPE] paid to the Conclave treasury."
    , tparameters :=
        [ { name := "UBER_TECH_COMPONENT", ptype := "uber_tech" }
        , { name := "LICENSE_COST", ptype := "range", lo := some 50, hi := some 200 }
        , { name := "RESOURCE_TYPE", ptype := "resource_type" } ]
    , effects := some { etype := "component_licensing", appliesTo := "uber_tech" }
    , category := some "technology" }
  , { templateId := "chrono_shard_regulation"
    , tname := "Chrono Shard Regulation"
    , templateText := "All Chrono Shard transactions exceeding [THRESHOLD] CS must be registered with the Conclave and incur a [FEE_PERCENTAGE]% transaction fee."
    , tparameters :=
        [ { name := "THRESHOLD", ptype := "number" }
        , { name := "FEE_PERCENTAGE", ptype := "range", lo := some 5, hi := some 20 } ]
    , effects := some { etype := "chrono_shard_fee", appliesTo := "black_market" }
    , category := some "economic" }
  , { templateId := "trade_route_taxation"
    , tname := "Trade Route Taxation"
    , templateText := "Trade passing through [REGION] incurs a [TAX_PERCENTAGE]% tariff payable to the Kokoro Conclave treasury."
    , tparameters :=
        [ { name := "REGION", ptype := "star_system" }
        , { name := "TAX_PERCENTAGE", ptype := "range", lo := some 5, hi := some 25 } ]
    , effects := some { etype := "route_tax", appliesTo := "trade" }
    , category := some "economic" }
  , { templateId := "black_market_crackdown"
    , tname := "Black Market Crackdown"
    , templateText := "The Conclave authorizes enforcement against black market operations in [REGION] for the next [DURATION] rounds. Violators forfeit [PENALTY] units of [RESOURCE_TYPE]."
    , tparameters :=
        [ { name := "REGION", ptype := "star_system" }
        , { name := "DURATION", ptype := "range", lo := some 1, hi := some 3 }
        , { name := "PENALTY", ptype := "range", lo := some 50, hi := some 200 }
        , { name := "RESOURCE_TYPE", ptype := "resource_type" } ]
    , effects := some { etype := "black_market_penalty", appliesTo := "specific_region" }
    , category := some "security" }
  , { templateId := "project_taxation"
    , tname := "Universal Project Taxation"
    , templateText := "Upon completion of any Universal Project, the builder must pay [TAX_PERCENTAGE]% of construction resources to the Kokoro Conclave treasury."
    , tparameters :=
        [ { name := "TAX_PERCENTAGE", ptype := "range", lo := some 10, hi := some 30 } ]
    , effects := some { etype := "project_tax", appliesTo := "universal_projects" }
    , category := some "technology" }
  , { templateId := "benefit_distribution"
    , tname := "Project Benefit Distribution"
    , templateText := "Benefits from [PROJECT_NAME] must be shared with [BENEFICIARIES] for [DURATION] rounds after completion."
    , tparameters :=
        [ { name := "PROJECT_NAME", ptype := "project" }
        , { name := "BENEFICIARIES", ptype := "civilization_list" }
        , { name := "DURATION", ptype := "range", lo := some 1, hi := some 5 } ]
    , effects := some { etype := "benefit_sharing", appliesTo := "specific_project" }
    , category := some "diplomacy" } ]

/-- `LawSystemConfig.get_template`. -/
def getTemplate (templateId : String) : Option LawTemplate :=
  catalog.find? (fun t => t.templateId == templateId)

/-- The string-kinded parameter types of `validate_parameters`. -/
def stringKinds : List String :=
  ["resource_category", "resource_type", "project",
   "uber_tech", "star_system", "text", "civilization_list"]

/-- Whether a value is a Python `str` or `list` instance. -/
def isStrOrList : PValue → Bool
  | .str _ => true
  | .intStr _ _ => true
  | .fracStr _ _ => true
  | .strList _ => true
  | .num _ _ => false

/-- The errors one parameter spec contributes in
`LawSystemService.validate_parameters`. -/
def paramErrors (params : Params) (pd : ParamSpec) : List String :=
  match pyGet params pd.name with
  | none => ["Missing required parameter: " ++ pd.name]
  | some v =>
    if pd.ptype == "range" then
      match pyFloat v with
      | none => ["Parameter " ++ pd.name ++ " must be a number"]
      | some q =>
        let lo := pd.lo.getD 0
        if q < lo || (match pd.hi with | some hi => decide (hi < q) | none => false) then
          ["Parameter " ++ pd.name ++ " must be between " ++ toString lo
            ++ " and " ++ (match pd.hi with | some hi => toString hi | none => "inf")]
        else []
    else if pd.ptype == "number" then
      match pyFloat v with
      | none => ["Parameter " ++ pd.name ++ " must be a number"]
      | some _ => []
    else if stringKinds.contains pd.ptype then
      if isStrOrList v then [] else ["Parameter " ++ pd.name ++ " has invalid type"]
    else []

/-- `LawSystemService.validate_parameters`: returns
`(is_valid, error_messages)`. -/
def validateParameters (templateId : String) (params : Params) :
    Bool × List String :=
  match getTemplate templateId with
  | none => (false, ["Template not found"])
  | some t =>
    let errors := t.tparameters.foldl (fun errs pd => errs ++ paramErrors params pd) []
    (errors.isEmpty, errors)

/-- Fuel-indexed recursion for Python string replacement; every step
consumes at least one character of `s`, so `s.length` fuel is enough. -/
def listReplaceFuel : ℕ → List Char → List Char → List Char → List Char
  | 0, s, _, _ => s
  | _ + 1, s, [], _ => s
  | _ + 1, [], _, _ => []
  | f + 1, c :: rest, p :: ps, rep =>
    if (p :: ps).isPrefixOf (c :: rest) then
      rep ++ listReplaceFuel f ((c :: rest).drop (p :: ps).length) (p :: ps) rep
    else c :: listReplaceFuel f rest (p :: ps) rep

/-- Python `s.replace(old, new)` on character lists: replaces every
non-overlapping occurrence of `pat`, scanning left to right.  (Python's
special behaviour on an empty `old` is irrelevant here: every pattern the
code builds is bracketed, hence non-empty; we return `s` unchanged.) -/
def listReplace (s pat rep : List Char) : List Char :=
  listReplaceFuel s.length s pat rep

theorem listReplaceFuel_fuel_irrel :
    ∀ f g s pat rep, s.length ≤ f → s.length ≤ g →
      listReplaceFuel f s pat rep = listReplaceFuel g s pat rep := by
  intro f
  induction f with
  | zero =>
    intro g s pat rep hf _
    have hs : s = [] := List.eq_nil_of_length_eq_zero (Nat.le_zero.mp hf)
    subst hs
    cases g with
    | zero => rfl
    | succ g => cases pat <;> rfl
  | succ f ih =>
    intro g s pat rep hf hg
    cases s with
    | nil =>
      cases g with
      | zero => cases pat <;> rfl
      | succ g => cases pat <;> rfl
    | cons c rest =>
      cases g with
      | zero => simp at hg
      | succ g =>
        cases pat with
        | nil => rfl
        | cons p ps =>
          simp only [listReplaceFuel]
          by_cases hpre : (p :: ps).isPrefixOf (c :: rest) = true
          · simp only [hpre, if_true]
            have hlen : ((c :: rest).drop (p :: ps).length).length ≤ f := by
              simp only [List.length_drop, List.length_cons] at *
              omega
            have hleng : ((c :: rest).drop (p :: ps).length).length ≤ g := by
              simp only [List.length_drop, List.length_cons] at *
              omega
            rw [ih g _ _ _ hlen hleng]
          · simp only [hpre, if_false, Bool.false_eq_true]
            have hlen : rest.length ≤ f := by
              simp only [List.length_cons] at hf; omega
            have hleng : rest.length ≤ g := by
              simp only [List.length_cons] at hg; omega
            rw [ih g _ _ _ hlen hleng]

theorem listReplace_pat_nil (s rep : List Char) : listReplace s [] rep = s := by
  cases s <;> rfl

theorem listReplace_nil (pat rep : List Char) : listReplace [] pat rep = [] := by
  cases pat <;> rfl

theorem listReplace_cons (c : Char) (rest : List Char) (p : Char)
    (ps rep : List Char) :
    listReplace (c :: rest) (p :: ps) rep =
      if (p :: ps).isPrefixOf (c :: rest) then
        rep ++ listReplace ((c :: rest).drop (p :: ps).length) (p :: ps) rep
      else c :: listReplace rest (p :: ps) rep := by
  show listReplaceFuel (c :: rest).length (c :: rest) (p :: ps) rep = _
  simp only [List.length_cons, listReplaceFuel]
  by_cases hpre : (p :: ps).isPrefixOf (c :: rest) = true
  · simp only [hpre, if_true]
    congr 1
    apply listReplaceFuel_fuel_irrel
    · simp only [List.length_drop, List.length_cons]; omega
    · rfl
  · simp only [hpre, if_false, Bool.false_eq_true]
    congr 1

/-- Python `text.replace("[" + name + "]", str(value))`. -/
def pyReplace (s pat rep : String) : String :=
  String.mk (listReplace s.data pat.data rep.data)

/-- `LawSystemConfig.render_law_text`: substitutes every provided
parameter, iterating the parameter dict in insertion order. -/
def renderLawText (templateId : String) (params : Params) : String :=
  match getTemplate templateId with
  | none => ""
  | some t =>
    params.foldl (fun text kv => pyReplace text ("[" ++ kv.1 ++ "]") (pyStr kv.2))
      t.templateText

/-- The result of `LawSystemConfig.calculate_effects`: either the empty
dict (missing template or empty template effects) or
`{type, applies_to, parameters}`. -/
inductive CalcEffects where
  | empty
  | mk (etype : String) (appliesTo : String) (parameters : Params)
  deriving DecidableEq

/-- `LawSystemConfig.calculate_effects`. -/
def calculateEffects (templateId : String) (params : Params) : CalcEffects :=
  match getTemplate templateId with
  | none => .empty
  | some t =>
    match t.effects with
    | none => .empty
    | some ed => .mk ed.etype ed.appliesTo params

/-- The vote ledger: proposal id to list of civilizations that voted yes,
a Python dict in insertion order. -/
abbrev VoteMap := List (String × List String)

/-- Python `current_votes.get(pid)`. -/
def vmGet (vm : VoteMap) (k : String) : Option (List String) :=
  (vm.find? (fun kv => kv.1 == k)).map (fun kv => kv.2)

/-- `vote_on_law`'s mutation of `current_votes`: create the key with `[]`
if absent, then append the civilization unless it already voted. -/
def vmAddVote (vm : VoteMap) (proposalId civ : String) : VoteMap :=
  match vmGet vm proposalId with
  | none => vm ++ [(proposalId, [civ])]
  | some votes =>
    if civ ∈ votes then vm
    else vm.map (fun kv => if kv.1 == proposalId then (kv.1, kv.2 ++ [civ]) else kv)

/-- Outcome of `LawSystemService.vote_on_law`. -/
inductive VoteOutcome where
  | rejected (err : String)
  | ok
  deriving DecidableEq

/-- `LawSystemService.vote_on_law`: returns the outcome dict together with
the post-state of `current_votes` (the Python code mutates the dict in
place only on the success path).  `abstainAllowed` is
`voting_rules.get("abstain_allowed", False)` with the absent key as
`none`. -/
def voteOnLaw (proposalId votingCiv : String) (vote : Bool)
    (currentVotes : VoteMap) (abstainAllowed : Option Bool) :
    VoteOutcome × VoteMap :=
  if vote = false && (abstainAllowed.getD false) = false then
    (.rejected "Abstaining from voting is not allowed", currentVotes)
  else
    if vote then (.ok, vmAddVote currentVotes proposalId votingCiv)
    else (.ok, currentVotes)


/-- A law proposal as `resolve_law_votes` sees it.  `id?` is the dict's
optional `"id"` entry; `reprStr` stands for Python's `str(proposal)`, the
fallback key the code uses when `"id"` is absent.  `createdAt` embeds the
`created_at` column of the proposal record; `resolve_law_votes` never
reads it. -/
structure Proposal where
  pidOpt : Option String
  reprStr : String
  createdAt : ℤ
  deriving DecidableEq

/-- `proposal.get("id", str(proposal))`. -/
def pid (p : Proposal) : String := p.pidOpt.getD p.reprStr

/-- Number of votes recorded for a proposal id:
`len(current_votes.get(proposal_id, []))`. -/
def cnt (vm : VoteMap) (k : String) : ℕ := ((vmGet vm k).getD []).length

/-- Python dict assignment `d[k] = v` on an ordered association list. -/
def cntSet (d : List (String × ℕ)) (k : String) (v : ℕ) : List (String × ℕ) :=
  if d.any (fun kv => kv.1 == k) then
    d.map (fun kv => if kv.1 == k then (kv.1, v) else kv)
  else d ++ [(k, v)]

/-- The `vote_counts` dict built by `resolve_law_votes`. -/
def voteTally (props : List Proposal) (vm : VoteMap) : List (String × ℕ) :=
  props.foldl (fun acc p => cntSet acc (pid p) (cnt vm (pid p))) []

/-- Lookup in the tally dict. -/
def tallyLookup (d : List (String × ℕ)) (k : String) : Option ℕ :=
  (d.find? (fun kv => kv.1 == k)).map (fun kv => kv.2)

/-- Python `max` over a non-empty list of naturals (`0` on `[]`, a case
the code guards against). -/
def listMax (l : List ℕ) : ℕ := l.foldl max 0

/-- Result of `LawSystemService.resolve_law_votes`. -/
inductive ResolveResult where
  | noProposals
  | tiedNoBreaker (tied : List String)
  | success (winner : Option Proposal) (tally : List (String × ℕ)) (tieOccurred : Bool)
  deriving DecidableEq

/-- `LawSystemService.resolve_law_votes`.  `tiebreaker` is
`voting_rules.get("tiebreaker", "none")` and `pick` stands for
`random.choice`, consulted only on the `"random"` branch. -/
def resolveLawVotes (props : List Proposal) (vm : VoteMap)
    (tiebreaker : String) (pick : List String → String) : ResolveResult :=
  let tally := voteTally props vm
  if tally.isEmpty then .noProposals
  else
    let maxV := listMax (tally.map (fun kv => kv.2))
    let winners := (tally.filter (fun kv => kv.2 == maxV)).map (fun kv => kv.1)
    if winners.length != 1 && tiebreaker == "none" then
      .tiedNoBreaker winners
    else
      let winningId : Option String :=
        if winners.length == 1 then winners.head?
        else if tiebreaker == "random" then some (pick winners)
        else if tiebreaker == "oldest_first" then winners.head?
        else none
      let winner := match winningId with
        | none => none
        | some w => props.find? (fun p => pid p == w)
      .success winner tally (decide (1 < winners.length))

/-- Whether `resolve_law_votes` returned `success: False`. -/
def isFailure : ResolveResult → Bool
  | .noProposals => true
  | .tiedNoBreaker _ => true
  | .success _ _ _ => false

/-- A law as a dict, the shape `check_law_conflicts` and
`calculate_law_effects` read: `category`, `effects.get("type")`,
`effects.get("applies_to")` and `parameters` (with `id?` for the
endpoint's `conflict["id"]` access). -/
structure LawDict where
  idOpt : Option String
  category : Option String
  etype : Option String
  appliesTo : Option String
  lparams : Params
  deriving DecidableEq

/-- Python `t in ["resource_tax", "route_tax"]` on an optional effect
type. -/
def isTaxLike : Option String → Bool
  | some t => t == "resource_tax" || t == "route_tax"
  | none => false

/-- `LawSystemService.check_law_conflicts`: the `conflicts` list built by
the for-loop, in order of `existing_laws`. -/
def checkLawConflicts (newLaw : LawDict) (existingLaws : List LawDict) :
    List LawDict :=
  existingLaws.foldl (fun conflicts el =>
    if newLaw.category == el.category && newLaw.etype == el.etype then
      if isTaxLike newLaw.etype && isTaxLike el.etype then
        if pyGet newLaw.lparams "RESOURCE_TYPE" == pyGet el.lparams "RESOURCE_TYPE" then
          conflicts ++ [el]
        else conflicts
      else if newLaw.etype == some "project_restriction" then
        if pyGet newLaw.lparams "PROJECT_NAME" == pyGet el.lparams "PROJECT_NAME" then
          conflicts ++ [el]
        else conflicts
      else conflicts
    else conflicts) []

/-- The action context of `calculate_law_effects`, with the fields the
code reads (typed: the callers supply strings, a string list route and a
numeric amount; `context.get(...)` on an absent key is `none`, `route`
defaults to `[]` and `amount` to `0`). -/
structure EffContext where
  actionType : Option String
  resourceType : Option String
  route : List String
  projectName : Option String
  componentName : Option String
  amount : ℤ
  region : Option String
  deriving DecidableEq

/-- A dict appended to `effects["restrictions"]`. -/
inductive Restriction where
  | blackMarket (region : Option PValue) (penalty : ℤ) (resourceType : Option PValue)
  | benefitSharing (project : Option PValue) (beneficiaries : PValue) (duration : ℤ)
  deriving DecidableEq

/-- The accumulator dict of `calculate_law_effects`.
`resourceRequirements` is keyed by the law's `RESOURCE_TYPE` parameter
value (`none` when that parameter is absent, Python's `None` key). -/
structure EffectsAcc where
  taxPercentage : ℚ
  licenseCost : ℤ
  resourceRequirements : List (Option PValue × ℤ)
  restrictions : List Restriction
  deriving DecidableEq

/-- The zero accumulator. -/
def initAcc : EffectsAcc := ⟨0, 0, [], []⟩

/-- `effects["resource_requirements"]` update: insert `0` for a missing
key, then add `v`. -/
def reqAdd (reqs : List (Option PValue × ℤ)) (k : Option PValue) (v : ℤ) :
    List (Option PValue × ℤ) :=
  if reqs.any (fun kv => kv.1 == k) then
    reqs.map (fun kv => if kv.1 == k then (kv.1, kv.2 + v) else kv)
  else reqs ++ [(k, v)]

/-- `law.get("parameters", {}).get(NAME, default)`. -/
def lawParam (law : LawDict) (name : String) (dflt : PValue) : PValue :=
  (pyGet law.lparams name).getD dflt

/-- Python equality between an optional parameter value and an optional
context string (`None == None` is `True`). -/
def optEqStr (v : Option PValue) (s : Option String) : Bool :=
  v == s.map PValue.str

/-- The body of the `for law in active_laws` loop of
`calculate_law_effects` (the second definition in the source, which
shadows the first); `none` models an uncaught `ValueError`/`TypeError`
from `float(...)`/`int(...)`. -/
def applyLaw (ctx : EffContext) (acc : EffectsAcc) (law : LawDict) :
    Option EffectsAcc :=
  if ctx.actionType == some "trade" && law.appliesTo != some "trade" then
    some acc
  else if ctx.actionType == some "project_development" &&
      !(law.appliesTo == some "specific_project" || law.appliesTo == some "universal_projects") then
    some acc
  else if law.etype == some "resource_tax" && ctx.actionType == some "trade" then
    let taxedResource := pyGet law.lparams "RESOURCE_TYPE"
    if optEqStr taxedResource ctx.resourceType || taxedResource == some (PValue.str "ALL") then
      match pyFloat (lawParam law "TAX_PERCENTAGE" (.num "0" 0)) with
      | none => none
      | some r => some { acc with taxPercentage := acc.taxPercentage + r }
    else some acc
  else if law.etype == some "route_tax" && ctx.actionType == some "trade" then
    let taxedRegion := pyGet law.lparams "REGION"
    if (match taxedRegion with
        | some v => ctx.route.any (fun r => v == PValue.str r)
        | none => false) then
      match pyFloat (lawParam law "TAX_PERCENTAGE" (.num "0" 0)) with
      | none => none
      | some r => some { acc with taxPercentage := acc.taxPercentage + r }
    else some acc
  else if law.etype == some "project_restriction" && ctx.actionType == some "project_development" then
    if optEqStr (pyGet law.lparams "PROJECT_NAME") ctx.projectName then
      match pyInt (lawParam law "LICENSE_COST" (.num "0" 0)) with
      | none => none
      | some lc =>
        let resourceType := pyGet law.lparams "RESOURCE_TYPE"
        some { acc with licenseCost := acc.licenseCost + lc,
                        resourceRequirements := reqAdd acc.resourceRequirements resourceType lc }
    else some acc
  else if law.etype == some "component_licensing" && ctx.actionType == some "tech_development" then
    if optEqStr (pyGet law.lparams "UBER_TECH_COMPONENT") ctx.componentName then
      match pyInt (lawParam law "LICENSE_COST" (.num "0" 0)) with
      | none => none
      | some lc =>
        let resourceType := pyGet law.lparams "RESOURCE_TYPE"
        some { acc with licenseCost := acc.licenseCost + lc,
                        resourceRequirements := reqAdd acc.resourceRequirements resourceType lc }
    else some acc
  else if law.etype == some "chrono_shard_fee" && ctx.actionType == some "chrono_shard_transaction" then
    match pyInt (lawParam law "THRESHOLD" (.num "0" 0)) with
    | none => none
    | some threshold =>
      if ctx.amount > threshold then
        match pyFloat (lawParam law "FEE_PERCENTAGE" (.num "0" 0)) with
        | none => none
        | some fee => some { acc with taxPercentage := acc.taxPercentage + fee }
      else some acc
  else if law.etype == some "black_market_penalty" && ctx.actionType == some "black_market" then
    let region := pyGet law.lparams "REGION"
    if optEqStr region ctx.region || region == some (PValue.str "ALL") then
      let resourceType := pyGet law.lparams "RESOURCE_TYPE"
      match pyInt (lawParam law "PENALTY" (.num "0" 0)) with
      | none => none
      | some penalty =>
        some { acc with
          resourceRequirements := reqAdd acc.resourceRequirements resourceType penalty,
          restrictions := acc.restrictions ++ [.blackMarket region penalty resourceType] }
    else some acc
  else if law.etype == some "project_tax" && ctx.actionType == some "project_completion" then
    match pyFloat (lawParam law "TAX_PERCENTAGE" (.num "0" 0)) with
    | none => none
    | some r => some { acc with taxPercentage := acc.taxPercentage + r }
  else if law.etype == some "benefit_sharing" && ctx.actionType == some "project_benefits" then
    let projectName := pyGet law.lparams "PROJECT_NAME"
    if optEqStr projectName ctx.projectName then
      match pyInt (lawParam law "DURATION" (.num "0" 0)) with
      | none => none
      | some duration =>
        let beneficiaries := lawParam law "BENEFICIARIES" (.strList [])
        some { acc with restrictions :=
          acc.restrictions ++ [.benefitSharing projectName beneficiaries duration] }
    else some acc
  else some acc

/-- The `for` loop of `calculate_law_effects`, threading the accumulator;
`none` propagates an exception. -/
def calcEffLoop (ctx : EffContext) : List LawDict → EffectsAcc → Option EffectsAcc
  | [], acc => some acc
  | law :: rest, acc =>
    match applyLaw ctx acc law with
    | none => none
    | some acc2 => calcEffLoop ctx rest acc2

/-- `LawSystemService.calculate_law_effects` (the surviving second
definition): runs the loop, then caps `tax_percentage` at `100`. -/
def calculateLawEffects (laws : List LawDict) (ctx : EffContext) :
    Option EffectsAcc :=
  (calcEffLoop ctx laws initAcc).map
    (fun acc => { acc with taxPercentage :=
      if acc.taxPercentage ≤ 100 then acc.taxPercentage else 100 })

/-- An `EnactedLaw` database record (`app/models/law.py`), with the
fields read by the law endpoints: identity, the dict view used for
conflict detection, and the lifecycle columns.  `duration` is an
`Option` because the endpoint defends against a missing value
(`law.duration or 3`). -/
structure ELaw where
  lid : String
  category : Option String
  etype : Option String
  appliesTo : Option String
  lparams : Params
  isActive : Bool
  voidedBy : Option String
  enactedRound : ℤ
  duration : Option ℤ
  deriving DecidableEq

/-- The dict view of an enacted law consumed by
`check_law_conflicts`. -/
def elawToDict (l : ELaw) : LawDict :=
  ⟨some l.lid, l.category, l.etype, l.appliesTo, l.lparams⟩

/-- The winning proposal record as the resolve endpoint and
`crud_law.enact_law` read it. -/
structure PropRec where
  prid : String
  category : Option String
  etype : Option String
  appliesTo : Option String
  lparams : Params
  deriving DecidableEq

/-- The dict view of a proposal consumed by `check_law_conflicts`. -/
def propToDict (w : PropRec) : LawDict :=
  ⟨some w.prid, w.category, w.etype, w.appliesTo, w.lparams⟩

/-- `crud_law.void_law(db, law_id)` with its default `voided_by=None`:
finds the first law with the given id, marks it inactive and overwrites
`voided_by` with the argument (`None`). -/
def voidLawDb : List ELaw → String → List ELaw
  | [], _ => []
  | l :: rest, lawId =>
    if l.lid == lawId then { l with isActive := false, voidedBy := none } :: rest
    else l :: voidLawDb rest lawId

/-- `crud_law.expire_law(db, law_id)`: marks the first law with the given
id inactive; `voided_by` is untouched. -/
def expireLawDb : List ELaw → String → List ELaw
  | [], _ => []
  | l :: rest, lawId =>
    if l.lid == lawId then { l with isActive := false } :: rest
    else l :: expireLawDb rest lawId

/-- The record `crud_law.enact_law` creates: active, enacted at the given
round, duration 3, `voided_by` at its column default (`NULL`). -/
def newEnactedLaw (w : PropRec) (round : ℤ) (newId : String) : ELaw :=
  ⟨newId, w.category, w.etype, w.appliesTo, w.lparams, true, none, round, some 3⟩

/-- The enactment tail of the `POST /resolve` endpoint
(`laws.py, resolve_law_votes`), after a winning proposal is known:
snapshot the active laws, detect conflicts, void each conflict
(`void_law` without a `voided_by` argument), then enact the new law.
Returns the new database state and `conflicts_voided`.  `newId` stands
for the UUID the database generates for the new law. -/
def enactWinning (db : List ELaw) (w : PropRec) (round : ℤ) (newId : String) :
    List ELaw × ℕ :=
  let active := db.filter (fun l => l.isActive)
  let conflicts := checkLawConflicts (propToDict w) (active.map elawToDict)
  let db1 := conflicts.foldl
    (fun d c => match c.idOpt with | some i => voidLawDb d i | none => d) db
  (db1 ++ [newEnactedLaw w round newId], conflicts.length)

/-- `law.duration or 3`: Python `or` replaces both `None` and `0` by the
default `3`. -/
def effDuration : Option ℤ → ℤ
  | none => 3
  | some n => if n = 0 then 3 else n

/-- The `POST /expire-check` endpoint (`laws.py, check_law_expiration`):
expires every active law whose effective duration has elapsed.  Returns
the new database state, `expired_laws` and `active_laws_remaining`. -/
def checkLawExpiration (db : List ELaw) (round : ℤ) : List ELaw × ℕ × ℕ :=
  let active := db.filter (fun l => l.isActive)
  let expired := active.filter (fun l => effDuration l.duration ≤ round - l.enactedRound)
  let db1 := expired.foldl (fun d l => expireLawDb d l.lid) db
  (db1, expired.length, active.length - expired.length)

/-- The per-law conflict test of `check_law_conflicts`, extracted as a
predicate: same category and effect type, then the type-specific
same-target test actually performed by the code (which compares the
`RESOURCE_TYPE` parameter for both tax-like types, and `PROJECT_NAME`
for `project_restriction`). -/
def conflictCond (newLaw el : LawDict) : Bool :=
  newLaw.category == el.category && newLaw.etype == el.etype &&
    (if isTaxLike newLaw.etype && isTaxLike el.etype then
       pyGet newLaw.lparams "RESOURCE_TYPE" == pyGet el.lparams "RESOURCE_TYPE"
     else if newLaw.etype == some "project_restriction" then
       pyGet newLaw.lparams "PROJECT_NAME" == pyGet el.lparams "PROJECT_NAME"
     else false)

/-- First-occurrence deduplication, matching the key set and order of a
Python dict built by repeated assignment. -/
def dedupFirst (l : List String) : List String :=
  l.foldl (fun acc k => if acc.any (fun x => x == k) then acc else acc ++ [k]) []

/-- The maximum vote count over the proposals' ids
(`max(vote_counts.values())` for distinct ids). -/
def maxVotes (props : List Proposal) (vm : VoteMap) : ℕ :=
  listMax (props.map (fun p => cnt vm (pid p)))

/-- The placeholder pattern `"[" + name + "]"` as characters. -/
def phPat (k : String) : List Char := '[' :: (k.data ++ [']'])

/-- Whether `pat` occurs as a contiguous sublist of `s`. -/
def containsSub (pat : List Char) : List Char → Bool
  | [] => pat.isEmpty
  | c :: rest => pat.isPrefixOf (c :: rest) || containsSub pat rest

/-- A parameter name with no bracket characters. -/
def goodName (k : String) : Prop := '[' ∉ k.data ∧ ']' ∉ k.data

instance (k : String) : Decidable (goodName k) := by
  unfold goodName; infer_instance

/-- `Brack S s`: every `'['` in `s` opens a complete placeholder `[K]`
with `K ∈ S`. -/
inductive Brack (S : List String) : List Char → Prop where
  | nil : Brack S []
  | chr (c : Char) (rest : List Char) (hc : c ≠ '[') (h : Brack S rest) :
      Brack S (c :: rest)
  | ph (K : String) (rest : List Char) (hK : K ∈ S) (h : Brack S rest) :
      Brack S (phPat K ++ rest)

/-- Fuel-indexed checker for `Brack` (sound; used only to certify the
nine concrete catalog texts). -/
def brackCheckFuel : ℕ → List String → List Char → Bool
  | 0, _, s => s.isEmpty
  | _ + 1, _, [] => true
  | f + 1, S, c :: rest =>
    if c = '[' then
      S.any (fun K =>
        (K.data ++ [']']).isPrefixOf rest && brackCheckFuel f S (rest.drop (K.data.length + 1)))
    else brackCheckFuel f S rest

/-- Checker entry point with enough fuel. -/
def brackCheck (S : List String) (s : List Char) : Bool :=
  brackCheckFuel (s.length + 1) S s

/-- A law dict with a negative resource-tax percentage (all values pass
validation of nothing here: `calculate_law_effects` takes arbitrary
active-law dicts). -/
def negTaxLaw : LawDict :=
  ⟨none, some "economic", some "resource_tax", some "trade",
    [("RESOURCE_TYPE", .str "ALL"), ("TAX_PERCENTAGE", .intStr "-5" (-5))]⟩

/-- A trade context. -/
def tradeCtx : EffContext := ⟨some "trade", some "Gold", [], none, none, 0, none⟩

/-- A route-tax law dict taxing region `Alpha`. -/
def routeTaxA : LawDict :=
  ⟨none, some "economic", some "route_tax", some "trade",
    [("REGION", .str "Alpha"), ("TAX_PERCENTAGE", .intStr "10" 10)]⟩

/-- A route-tax law dict taxing region `Beta`. -/
def routeTaxB : LawDict :=
  ⟨some "B", some "economic", some "route_tax", some "trade",
    [("REGION", .str "Beta"), ("TAX_PERCENTAGE", .intStr "15" 15)]⟩

/-- Parameters for `resource_tax_law` whose `RESOURCE_TYPE` value spells
a placeholder token. -/
def injPlain : Params :=
  [("RESOURCE_TYPE", .str "[FOO]"), ("TAX_PERCENTAGE", .intStr "15" 15)]

/-- `injPlain` extended with an entry for the undeclared name `FOO`. -/
def injExtra : Params := injPlain ++ [("FOO", .str "Gold")]

/-- Validated parameters for `resource_quota_system` whose `PROGRAM_NAME`
value injects the `RESOURCE_TYPE` placeholder after that placeholder has
already been substituted. -/
def quotaInj : Params :=
  [("RESOURCE_TYPE", .str "Iron"), ("PROGRAM_NAME", .str "[RESOURCE_TYPE]"),
   ("QUOTA_AMOUNT", .intStr "10" 10)]

/-- The scenario parameters of the spec's render example. -/
def neutroniumParams : Params :=
  [("RESOURCE_TYPE", .str "Neutronium"), ("TAX_PERCENTAGE", .intStr "15" 15)]

/-- A proposal created later (round 5) but listed first. -/
def propLate : Proposal := ⟨some "A", "reprA", 5⟩

/-- A proposal created earlier (round 1) but listed second. -/
def propEarly : Proposal := ⟨some "B", "reprB", 1⟩

/-- A vote snapshot tying `propLate` and `propEarly` at one vote each. -/
def tieVotes : VoteMap := [("A", ["civ1"]), ("B", ["civ2"])]

/-- An active enacted law taxing Neutronium at 15%. -/
def oldLaw : ELaw :=
  ⟨"OLD", some "economic", some "resource_tax", some "trade",
    [("RESOURCE_TYPE", .str "Neutronium"), ("TAX_PERCENTAGE", .intStr "15" 15)],
    true, none, 1, some 3⟩

/-- A winning proposal taxing Neutronium at 20%. -/
def winProp : PropRec :=
  ⟨"P1", some "economic", some "resource_tax", some "trade",
    [("RESOURCE_TYPE", .str "Neutronium"), ("TAX_PERCENTAGE", .intStr "20" 20)]⟩

/-- An active law whose stored duration is `0`. -/
def zeroDurLaw : ELaw :=
  ⟨"Z", some "economic", some "resource_tax", some "trade", [], true, none, 5, some 0⟩

/-- The spec scenario's law: enacted at round 2 with duration 3. -/
def scenLaw : ELaw :=
  ⟨"S", some "economic", some "resource_tax", some "trade", [], true, none, 2, some 3⟩

/-- A degenerate stand-in for `random.choice`, used where the random
branch is unreachable. -/
def constPick : List String → String := fun _ => ""

/-- A two-proposal vote snapshot with 2 and 1 votes. -/
def twoOneVotes : VoteMap := [("A", ["c1", "c2"]), ("B", ["c3"])]

/-- The parameter specs `validate_parameters` iterates for a template id
(empty for an unknown template). -/
def declaredSpecs (tid : String) : List ParamSpec :=
  match getTemplate tid with
  | none => []
  | some t => t.tparameters

theorem paramErrors_congr (m1 m2 : Params) (pd : ParamSpec)
    (h : pyGet m1 pd.name = pyGet m2 pd.name) :
    paramErrors m1 pd = paramErrors m2 pd := by
  unfold paramErrors
  rw [h]

theorem validateParameters_agree (tid : String) (m1 m2 : Params)
    (h : ∀ pd ∈ declaredSpecs tid, pyGet m1 pd.name = pyGet m2 pd.name) :
    validateParameters tid m1 = validateParameters tid m2 := by
  unfold validateParameters
  unfold declaredSpecs at h
  cases hg : getTemplate tid with
  | none => rfl
  | some t =>
    rw [hg] at h
    dsimp only at h ⊢
    have key : ∀ (l : List ParamSpec) (e : List String),
        (∀ pd ∈ l, pyGet m1 pd.name = pyGet m2 pd.name) →
        l.foldl (fun errs pd => errs ++ paramErrors m1 pd) e =
          l.foldl (fun errs pd => errs ++ paramErrors m2 pd) e := by
      intro l
      induction l with
      | nil => intro e _; rfl
      | cons pd rest ih =>
        intro e hl
        simp only [List.foldl_cons]
        rw [paramErrors_congr m1 m2 pd (hl pd (List.mem_cons_self pd rest))]
        exact ih _ (fun q hq => hl q (List.mem_cons_of_mem pd hq))
    rw [key t.tparameters [] h]

/-- Claim C8: with abstention disallowed by the voting configuration
(including the default when the key is absent), a non-affirmative vote is
rejected with the "abstaining not allowed" error and the vote ledger is
returned unchanged. -/
theorem c8_abstain_rejected (proposalId votingCiv : String) (vm : VoteMap)
    (abstainAllowed : Option Bool) (h : abstainAllowed.getD false = false) :
    voteOnLaw proposalId votingCiv false vm abstainAllowed =
      (.rejected "Abstaining from voting is not allowed", vm) := by
  unfold voteOnLaw
  simp [h]

/-- Witness for C8 at a concrete ledger and configuration. -/
theorem c8_witness :
    voteOnLaw "p1" "civA" false [("p1", ["civB"])] (some false) =
      (.rejected "Abstaining from voting is not allowed", [("p1", ["civB"])]) :=
  c8_abstain_rejected "p1" "civA" [("p1", ["civB"])] (some false) rfl

/-- Claim C3 (amended): whenever `calculate_law_effects` returns, the
accumulated `tax_percentage` is at most 100 (the code caps it above after
the loop); the lower bound 0 of the original claim does not hold. -/
theorem c3_tax_capped_above (laws : List LawDict) (ctx : EffContext)
    (acc : EffectsAcc) (h : calculateLawEffects laws ctx = some acc) :
    acc.taxPercentage ≤ 100 := by
  unfold calculateLawEffects at h
  obtain ⟨a, _, rfl⟩ := Option.map_eq_some'.mp h
  dsimp only
  split
  · assumption
  · exact le_refl 100

/-- Witness for C3's amended bound on a concrete run. -/
theorem c3_witness :
    calculateLawEffects [] tradeCtx = some initAcc ∧ initAcc.taxPercentage ≤ 100 :=
  ⟨by norm_num [calculateLawEffects, calcEffLoop, initAcc],
   c3_tax_capped_above [] tradeCtx initAcc
     (by norm_num [calculateLawEffects, calcEffLoop, initAcc])⟩

/-- Counterexample to C3 as stated: a single active resource-tax law with
a negative `TAX_PERCENTAGE` drives the returned accumulator's
`tax_percentage` below 0 — the code never clamps from below. -/
theorem c3_counterexample :
    calculateLawEffects [negTaxLaw] tradeCtx = some ⟨-5, 0, [], []⟩ ∧
      ((-5 : ℚ) < 0) := by
  constructor
  · simp +decide [calculateLawEffects, calcEffLoop, applyLaw, negTaxLaw, tradeCtx,
      lawParam, pyGet, pyFloat, optEqStr, initAcc, List.find?]
  · norm_num

theorem foldl_conflicts (nl : LawDict) :
    ∀ (l : List LawDict) (acc : List LawDict),
      List.foldl
        (fun conflicts el =>
          if nl.category == el.category && nl.etype == el.etype then
            if isTaxLike nl.etype && isTaxLike el.etype then
              if pyGet nl.lparams "RESOURCE_TYPE" == pyGet el.lparams "RESOURCE_TYPE" then
                conflicts ++ [el]
              else conflicts
            else if nl.etype == some "project_restriction" then
              if pyGet nl.lparams "PROJECT_NAME" == pyGet el.lparams "PROJECT_NAME" then
                conflicts ++ [el]
              else conflicts
            else conflicts
          else conflicts)
        acc l = acc ++ l.filter (conflictCond nl) := by
  intro l
  induction l with
  | nil => intro acc; simp
  | cons el rest ih =>
    intro acc
    rw [List.foldl_cons, ih, List.filter_cons]
    by_cases h1 : (nl.category == el.category && nl.etype == el.etype) = true
    · by_cases h2 : (isTaxLike nl.etype && isTaxLike el.etype) = true
      · by_cases h3 :
            (pyGet nl.lparams "RESOURCE_TYPE" == pyGet el.lparams "RESOURCE_TYPE") = true
        · simp [conflictCond, h1, h2, h3]
        · simp [conflictCond, h1, h2, h3]
      · by_cases h4 : (nl.etype == some "project_restriction") = true
        · by_cases h5 :
              (pyGet nl.lparams "PROJECT_NAME" == pyGet el.lparams "PROJECT_NAME") = true
          · simp [conflictCond, h1, h2, h4, h5]
          · simp [conflictCond, h1, h2, h4, h5]
        · simp [conflictCond, h1, h2, h4]
    · simp [conflictCond, h1]

theorem checkLawConflicts_eq_filter (nl : LawDict) (ex : List LawDict) :
    checkLawConflicts nl ex = ex.filter (conflictCond nl) := by
  have h := foldl_conflicts nl ex []
  simpa [checkLawConflicts] using h

/-- Claim C2 (amended): an active law is reported as a conflict iff it
shares the new law's category and effect type and passes the code's
same-target test: for the tax-like effect types (`resource_tax`,
`route_tax`) equality of the `RESOURCE_TYPE` parameter (the `REGION` of a
route-tax law is never consulted, so two route-tax laws lacking
`RESOURCE_TYPE` compare equal regardless of region), and for
`project_restriction` equality of `PROJECT_NAME`; all other effect types
never conflict. -/
theorem c2_conflict_iff (nl : LawDict) (ex : List LawDict) (el : LawDict) :
    el ∈ checkLawConflicts nl ex ↔
      el ∈ ex ∧ nl.category = el.category ∧ nl.etype = el.etype ∧
        ((isTaxLike nl.etype = true ∧
            pyGet nl.lparams "RESOURCE_TYPE" = pyGet el.lparams "RESOURCE_TYPE") ∨
         (nl.etype = some "project_restriction" ∧
            pyGet nl.lparams "PROJECT_NAME" = pyGet el.lparams "PROJECT_NAME")) := by
  rw [checkLawConflicts_eq_filter, List.mem_filter]
  refine and_congr_right (fun _ => ?_)
  unfold conflictCond
  constructor
  · intro h
    rw [Bool.and_eq_true, Bool.and_eq_true] at h
    obtain ⟨⟨hc, ht⟩, hrest⟩ := h
    rw [beq_iff_eq] at hc ht
    refine ⟨hc, ht, ?_⟩
    by_cases htax : (isTaxLike nl.etype && isTaxLike el.etype) = true
    · rw [if_pos htax] at hrest
      have htax1 := htax
      rw [Bool.and_eq_true] at htax1
      exact Or.inl ⟨htax1.1, beq_iff_eq.mp hrest⟩
    · rw [if_neg htax] at hrest
      by_cases hp : (nl.etype == some "project_restriction") = true
      · rw [if_pos hp] at hrest
        exact Or.inr ⟨beq_iff_eq.mp hp, beq_iff_eq.mp hrest⟩
      · rw [if_neg hp] at hrest
        exact absurd hrest (by simp)
  · rintro ⟨hc, ht, hcase⟩
    rcases hcase with ⟨htax, hres⟩ | ⟨hproj, hname⟩
    · have htax2 : isTaxLike el.etype = true := ht ▸ htax
      simp [hc, ht, htax, htax2, hres]
    · have hnotax : isTaxLike nl.etype = false := by
        rw [hproj]; rfl
      have hnotax2 : isTaxLike el.etype = false := ht ▸ hnotax
      have hproj2 : el.etype = some "project_restriction" := ht ▸ hproj
      simp [hc, ht, hproj, hproj2, hnotax, hnotax2, hname]
      exact Or.inl (by decide)

/-- Counterexample to C2 as stated: two active route-tax laws with the
same category and effect type but different `REGION` targets (and no
`RESOURCE_TYPE` parameter) are reported as conflicting, although the
claim requires no conflict for differing targets. -/
theorem c2_counterexample :
    checkLawConflicts routeTaxA [routeTaxB] = [routeTaxB] ∧
      routeTaxA.category = routeTaxB.category ∧
      routeTaxA.etype = some "route_tax" ∧ routeTaxB.etype = some "route_tax" ∧
      pyGet routeTaxA.lparams "REGION" ≠ pyGet routeTaxB.lparams "REGION" := by
  refine ⟨?_, rfl, rfl, rfl, ?_⟩ <;> decide

/-- Claim C10: parameter validation inspects only the declared
parameters — any two maps agreeing on the declared names get the same
verdict and error list (so undeclared entries are never rejected);
resolved effects embed the full parameter map verbatim; and an
undeclared entry can alter the rendered law text without changing the
validation verdict. -/
theorem c10_undeclared_params :
    (∀ tid m1 m2, (∀ pd ∈ declaredSpecs tid, pyGet m1 pd.name = pyGet m2 pd.name) →
       validateParameters tid m1 = validateParameters tid m2) ∧
    (∀ tid t m ed, getTemplate tid = some t → t.effects = some ed →
       calculateEffects tid m = .mk ed.etype ed.appliesTo m) ∧
    (validateParameters "resource_tax_law" injExtra =
       validateParameters "resource_tax_law" injPlain ∧
     renderLawText "resource_tax_law" injExtra ≠
       renderLawText "resource_tax_law" injPlain) := by
  refine ⟨validateParameters_agree, ?_, ?_, ?_⟩
  · intro tid t m ed hg hed
    unfold calculateEffects
    rw [hg]
    dsimp only
    rw [hed]
  · decide
  · decide

/-- Witness for C10 at a concrete template and parameter maps. -/
theorem c10_witness :
    validateParameters "resource_tax_law" injExtra =
        validateParameters "resource_tax_law" injPlain ∧
      calculateEffects "resource_tax_law" injExtra =
        .mk "resource_tax" "trade" injExtra :=
  ⟨c10_undeclared_params.1 "resource_tax_law" injExtra injPlain (by decide),
   c10_undeclared_params.2.1 "resource_tax_law" _ injExtra ⟨"resource_tax", "trade"⟩
     rfl rfl⟩

theorem foldl_max_eq (t : List ℕ) : ∀ x, t.foldl max x = max x (t.foldl max 0) := by
  induction t with
  | nil => intro x; simp
  | cons a t ih =>
    intro x
    simp only [List.foldl_cons]
    rw [ih (max x a), ih (max 0 a), Nat.zero_max, Nat.max_assoc]

theorem listMax_cons (a : ℕ) (t : List ℕ) : listMax (a :: t) = max a (listMax t) := by
  unfold listMax
  rw [List.foldl_cons, foldl_max_eq, Nat.zero_max]

theorem le_listMax (l : List ℕ) : ∀ x ∈ l, x ≤ listMax l := by
  induction l with
  | nil => intro x hx; cases hx
  | cons a t ih =>
    intro x hx
    rw [listMax_cons]
    rcases List.mem_cons.mp hx with rfl | hx2
    · exact Nat.le_max_left _ _
    · exact Nat.le_trans (ih x hx2) (Nat.le_max_right _ _)

theorem listMax_mem (l : List ℕ) (h : l ≠ []) : listMax l ∈ l := by
  induction l with
  | nil => exact absurd rfl h
  | cons a t ih =>
    rw [listMax_cons]
    cases t with
    | nil => simp [listMax]
    | cons b t2 =>
      rcases Nat.le_total (listMax (b :: t2)) a with hle | hle
      · rw [Nat.max_eq_left hle]; exact List.mem_cons_self a _
      · rw [Nat.max_eq_right hle]
        exact List.mem_cons_of_mem a (ih (by simp))

theorem cntSet_map (vm : VoteMap) (keys : List String) (k : String) :
    cntSet (keys.map (fun x => (x, cnt vm x))) k (cnt vm k) =
      (if keys.any (fun x => x == k) then keys else keys ++ [k]).map
        (fun x => (x, cnt vm x)) := by
  unfold cntSet
  have hmap : ((keys.map (fun x => (x, cnt vm x))).any (fun kv => kv.1 == k)) =
      keys.any (fun x => x == k) := by
    induction keys with
    | nil => rfl
    | cons x t ih => simp [List.map_cons, List.any_cons, ih]
  by_cases h : keys.any (fun x => x == k) = true
  · rw [hmap, h, if_pos rfl, if_pos rfl, List.map_map]
    apply List.map_congr_left
    intro x _
    dsimp only [Function.comp]
    by_cases hxk : (x == k) = true
    · have : x = k := beq_iff_eq.mp hxk
      simp [hxk, this]
    · simp [hxk]
  · have h2 : keys.any (fun x => x == k) = false := Bool.not_eq_true _ ▸ Bool.eq_false_iff.mpr h
    rw [hmap, h2]
    simp only [Bool.false_eq_true, if_false, List.map_append, List.map_cons, List.map_nil]

theorem voteTally_eq (props : List Proposal) (vm : VoteMap) :
    voteTally props vm = (dedupFirst (props.map pid)).map (fun k => (k, cnt vm k)) := by
  suffices key : ∀ (l : List Proposal) (keys : List String),
      l.foldl (fun acc p => cntSet acc (pid p) (cnt vm (pid p)))
        (keys.map (fun k => (k, cnt vm k))) =
      (l.foldl (fun acc p => if acc.any (fun x => x == pid p) then acc else acc ++ [pid p])
        keys).map (fun k => (k, cnt vm k)) by
    have h := key props []
    simpa [voteTally, dedupFirst, List.foldl_map] using h
  intro l
  induction l with
  | nil => intro keys; rfl
  | cons p rest ih =>
    intro keys
    rw [List.foldl_cons, List.foldl_cons, cntSet_map]
    by_cases h : keys.any (fun x => x == pid p) = true
    · rw [if_pos h]
      exact ih keys
    · have h2 : keys.any (fun x => x == pid p) = false := Bool.eq_false_iff.mpr h
      rw [h2]
      simp only [Bool.false_eq_true, if_false]
      exact ih (keys ++ [pid p])

theorem dedupFirst_nodup (l : List String) (h : l.Nodup) : dedupFirst l = l := by
  suffices key : ∀ (l2 : List String) (keys : List String), l2.Nodup →
      (∀ x ∈ l2, x ∉ keys) →
      l2.foldl (fun acc k => if acc.any (fun x => x == k) then acc else acc ++ [k]) keys =
        keys ++ l2 by
    have hk := key l [] h (by simp)
    simpa [dedupFirst] using hk
  intro l2
  induction l2 with
  | nil => intro keys _ _; simp
  | cons a t ih =>
    intro keys hnd hdisj
    rw [List.foldl_cons]
    have hnot : keys.any (fun x => x == a) = false := by
      rw [List.any_eq_false]
      intro x hx hxa
      exact hdisj a (List.mem_cons_self a t) (beq_iff_eq.mp hxa ▸ hx)
    rw [hnot]
    simp only [Bool.false_eq_true, if_false]
    rw [ih (keys ++ [a]) (List.Nodup.of_cons hnd) ?hdisj2]
    · simp
    case hdisj2 =>
      intro x hx
      rw [List.mem_append]
      rintro (hk | hk)
      · exact hdisj x (List.mem_cons_of_mem a hx) hk
      · have : x = a := by simpa using hk
        subst this
        exact (List.nodup_cons.mp hnd).1 hx

theorem voteTally_nodup (props : List Proposal) (vm : VoteMap)
    (hnd : (props.map pid).Nodup) :
    voteTally props vm = props.map (fun p => (pid p, cnt vm (pid p))) := by
  rw [voteTally_eq, dedupFirst_nodup _ hnd, List.map_map]
  rfl

theorem head?_filter_eq_find? {α : Type} (p : α → Bool) (l : List α) :
    (l.filter p).head? = l.find? p := by
  induction l with
  | nil => rfl
  | cons a t ih =>
    by_cases h : p a = true
    · simp [List.filter_cons, List.find?_cons, h]
    · simp [List.filter_cons, List.find?_cons, h, ih]

theorem find?_pid_nodup (props : List Proposal) (q : Proposal)
    (hnd : (props.map pid).Nodup) (hq : q ∈ props) :
    props.find? (fun p => pid p == pid q) = some q := by
  induction props with
  | nil => cases hq
  | cons a t ih =>
    rw [List.map_cons, List.nodup_cons] at hnd
    have hnd2 := hnd
    by_cases h : (pid a == pid q) = true
    · have haq : a = q := by
        rcases List.mem_cons.mp hq with rfl | hqt
        · rfl
        · exact absurd (List.mem_map_of_mem pid hqt)
            (beq_iff_eq.mp h ▸ hnd2.1)
      rw [haq]
      simp [List.find?_cons, haq ▸ h]
    · have hqt : q ∈ t := by
        rcases List.mem_cons.mp hq with rfl | hqt
        · exact absurd (by simp : (pid q == pid q) = true) h
        · exact hqt
      simp [List.find?_cons, h]
      exact ih hnd2.2 hqt

theorem filter_singleton_of_unique (props : List Proposal) (att : Proposal → Bool)
    (w : Proposal) (hnd : (props.map pid).Nodup) (hw : w ∈ props)
    (hatt : att w = true) (huniq : ∀ q ∈ props, att q = true → q = w) :
    props.filter att = [w] := by
  induction props with
  | nil => cases hw
  | cons a t ih =>
    rw [List.map_cons, List.nodup_cons] at hnd
    have hnd2 := hnd
    rcases List.mem_cons.mp hw with rfl | hwt
    · rw [List.filter_cons, if_pos hatt]
      have : t.filter att = [] := by
        rw [List.filter_eq_nil_iff]
        intro q hq hattq
        have : q = w := huniq q (List.mem_cons_of_mem w hq) hattq
        subst this
        exact hnd2.1 (List.mem_map_of_mem pid hq)
      rw [this]
    · have hna : att a = false := by
        by_contra hc
        have : a = w := huniq a (List.mem_cons_self a t) (Bool.not_eq_false _ ▸ hc)
        subst this
        exact hnd2.1 (List.mem_map_of_mem pid hwt)
      rw [List.filter_cons, if_neg (by simp [hna])]
      exact ih hnd2.2 hwt
        (fun q hq hattq => huniq q (List.mem_cons_of_mem a hq) hattq)

theorem tallyLookup_pair (props : List Proposal) (vm : VoteMap) (k : String)
    (hk : ∃ p ∈ props, pid p = k) :
    tallyLookup (props.map (fun p => (pid p, cnt vm (pid p)))) k =
      some (cnt vm k) := by
  induction props with
  | nil => rcases hk with ⟨p, hp, _⟩; cases hp
  | cons a t ih =>
    by_cases h : (pid a == k) = true
    · have hak : pid a = k := beq_iff_eq.mp h
      simp [tallyLookup, List.find?_cons, h, hak]
    · have h2 : (pid a == k) = false := Bool.eq_false_iff.mpr h
      rcases hk with ⟨p, hp, hpk⟩
      rcases List.mem_cons.mp hp with rfl | hpt
      · exact absurd (beq_iff_eq.mpr hpk) h
      · have hrec := ih ⟨p, hpt, hpk⟩
        simpa [tallyLookup, List.find?_cons, h2] using hrec

theorem resolve_eq (props : List Proposal) (vm : VoteMap) (tb : String)
    (pick : List String → String) (hnd : (props.map pid).Nodup) (hne : props ≠ []) :
    resolveLawVotes props vm tb pick =
      (let winners :=
        (props.filter (fun p => cnt vm (pid p) == maxVotes props vm)).map pid
      if winners.length != 1 && tb == "none" then .tiedNoBreaker winners
      else
        .success
          (match (if winners.length == 1 then winners.head?
                  else if tb == "random" then some (pick winners)
                  else if tb == "oldest_first" then winners.head?
                  else none) with
           | none => none
           | some w => props.find? (fun p => pid p == w))
          (props.map (fun p => (pid p, cnt vm (pid p))))
          (decide (1 < winners.length))) := by
  simp only [resolveLawVotes]
  rw [voteTally_nodup props vm hnd]
  have hne2 : (props.map (fun p => (pid p, cnt vm (pid p)))).isEmpty = false := by
    cases props with
    | nil => exact absurd rfl hne
    | cons a t => rfl
  rw [hne2]
  simp only [Bool.false_eq_true, if_false]
  have hmax : listMax ((props.map (fun p => (pid p, cnt vm (pid p)))).map
      (fun kv => kv.2)) = maxVotes props vm := by
    rw [List.map_map]
    rfl
  rw [hmax]
  have hwin : ((props.map (fun p => (pid p, cnt vm (pid p)))).filter
        (fun kv => kv.2 == maxVotes props vm)).map (fun kv => kv.1) =
      (props.filter (fun p => cnt vm (pid p) == maxVotes props vm)).map pid := by
    rw [List.filter_map, List.map_map]
    rfl
  rw [hwin]

/-- Claim C5: with distinct proposal ids, a non-empty proposal list and a
vote snapshot in which exactly one proposal attains the maximum vote
count, `resolve_law_votes` succeeds with that proposal as winner,
`tie_occurred = false`, and per-proposal vote counts equal to the sizes
of the snapshot's vote sets. -/
theorem c5_unique_max_winner (props : List Proposal) (vm : VoteMap) (tb : String)
    (pick : List String → String) (w : Proposal) (hnd : (props.map pid).Nodup)
    (hw : w ∈ props) (hmax : cnt vm (pid w) = maxVotes props vm)
    (huniq : ∀ q ∈ props, cnt vm (pid q) = maxVotes props vm → q = w) :
    resolveLawVotes props vm tb pick =
      .success (some w) (props.map (fun p => (pid p, cnt vm (pid p)))) false ∧
    (∀ p ∈ props, tallyLookup (voteTally props vm) (pid p) = some (cnt vm (pid p))) := by
  have hne : props ≠ [] := List.ne_nil_of_mem hw
  have hfil : props.filter (fun p => cnt vm (pid p) == maxVotes props vm) = [w] :=
    filter_singleton_of_unique props _ w hnd hw (beq_iff_eq.mpr hmax)
      (fun q hq hb => huniq q hq (beq_iff_eq.mp hb))
  constructor
  · rw [resolve_eq props vm tb pick hnd hne]
    simp [hfil, find?_pid_nodup props w hnd hw]
  · intro p hp
    rw [voteTally_nodup props vm hnd]
    exact tallyLookup_pair props vm (pid p) ⟨p, hp, rfl⟩

/-- Witness for C5: two proposals with 2 and 1 votes; the 2-vote one
wins with no tie. -/
theorem c5_witness :
    resolveLawVotes [propLate, propEarly] twoOneVotes "none" constPick =
      .success (some propLate) [("A", 2), ("B", 1)] false :=
  ((c5_unique_max_winner [propLate, propEarly] twoOneVotes "none" constPick propLate
      (by decide) (by decide) (by decide) (by decide)).1).trans (by decide)

theorem resolve_pick_irrel (props : List Proposal) (vm : VoteMap) (tb : String)
    (pick1 pick2 : List String → String) (h : tb ≠ "random") :
    resolveLawVotes props vm tb pick1 = resolveLawVotes props vm tb pick2 := by
  simp only [resolveLawVotes]
  have hr : (tb == "random") = false := beq_eq_false_iff_ne.mpr h
  rw [hr]
  simp only [Bool.false_eq_true, if_false]

/-- Claim C6 (amended): resolution with the `none` and `oldest_first`
tiebreakers is deterministic (the result does not depend on the random
source, and the function is pure, so re-running identical inputs yields
identical results); under `oldest_first` the selected winner is the
first proposal in the supplied list order attaining the maximum vote
count — creation timestamps are not consulted. -/
theorem c6_deterministic_oldest_first :
    (∀ (props : List Proposal) (vm : VoteMap) (pick1 pick2 : List String → String),
       resolveLawVotes props vm "none" pick1 = resolveLawVotes props vm "none" pick2 ∧
       resolveLawVotes props vm "oldest_first" pick1 =
         resolveLawVotes props vm "oldest_first" pick2) ∧
    (∀ (props : List Proposal) (vm : VoteMap) (pick : List String → String),
       (props.map pid).Nodup → props ≠ [] →
       resolveLawVotes props vm "oldest_first" pick =
         .success (props.find? (fun p => cnt vm (pid p) == maxVotes props vm))
           (props.map (fun p => (pid p, cnt vm (pid p))))
           (decide (1 < (props.filter
             (fun p => cnt vm (pid p) == maxVotes props vm)).length))) := by
  constructor
  · intro props vm pick1 pick2
    exact ⟨resolve_pick_irrel props vm "none" pick1 pick2 (by decide),
           resolve_pick_irrel props vm "oldest_first" pick1 pick2 (by decide)⟩
  · intro props vm pick hnd hne
    rw [resolve_eq props vm "oldest_first" pick hnd hne]
    have hhead : ((props.filter (fun p => cnt vm (pid p) == maxVotes props vm)).map
          pid).head? =
        (props.find? (fun p => cnt vm (pid p) == maxVotes props vm)).map pid := by
      rw [List.head?_map, head?_filter_eq_find?]
    cases hf : props.find? (fun p => cnt vm (pid p) == maxVotes props vm) with
    | none =>
      exfalso
      have hmapne : props.map (fun p => cnt vm (pid p)) ≠ [] := by
        cases props with
        | nil => exact absurd rfl hne
        | cons a t => simp
      have hmem : maxVotes props vm ∈ props.map (fun p => cnt vm (pid p)) :=
        listMax_mem _ hmapne
      obtain ⟨p, hp, hpmax⟩ := List.mem_map.mp hmem
      have := List.find?_eq_none.mp hf p hp
      exact this (beq_iff_eq.mpr hpmax)
    | some q =>
      have hq := List.mem_of_find?_eq_some hf
      simp only [hhead, hf]
      simp [find?_pid_nodup props q hnd hq]

/-- Counterexample to C6 as stated: two tied proposals where the first
listed was created later (round 5) than the second (round 1); with
`oldest_first` the code still selects the first listed proposal, not the
earliest-created one. -/
theorem c6_counterexample :
    resolveLawVotes [propLate, propEarly] tieVotes "oldest_first" constPick =
      .success (some propLate) [("A", 1), ("B", 1)] true ∧
    propEarly.createdAt < propLate.createdAt ∧ propLate ≠ propEarly := by
  refine ⟨?_, by decide, by decide⟩
  decide

/-- Witness for C6's amended statement at a concrete tied snapshot. -/
theorem c6_witness :
    resolveLawVotes [propLate, propEarly] tieVotes "oldest_first" constPick =
      .success (some propLate) [("A", 1), ("B", 1)] true :=
  ((c6_deterministic_oldest_first.2 [propLate, propEarly] tieVotes constPick
      (by decide) (by decide))).trans (by decide)

/-- Claim C4: with distinct proposal ids, `resolve_law_votes` fails iff
the proposal list is empty or more than one proposal attains the maximum
vote count while the configured tiebreaker is `none`; the empty case is
exactly the "no proposals to resolve" failure, and a tied failure
carries exactly the ids of the proposals attaining the maximum. -/
theorem c4_resolve_failure_iff (props : List Proposal) (vm : VoteMap) (tb : String)
    (pick : List String → String) (hnd : (props.map pid).Nodup) :
    (isFailure (resolveLawVotes props vm tb pick) = true ↔
       props = [] ∨ (tb = "none" ∧
         2 ≤ (props.filter (fun p => cnt vm (pid p) == maxVotes props vm)).length)) ∧
    (resolveLawVotes props vm tb pick = .noProposals ↔ props = []) ∧
    (∀ ws, resolveLawVotes props vm tb pick = .tiedNoBreaker ws →
       ∀ k, k ∈ ws ↔ ∃ p, p ∈ props ∧ pid p = k ∧
         cnt vm (pid p) = maxVotes props vm) := by
  by_cases hne : props = []
  · subst hne
    have h0 : resolveLawVotes [] vm tb pick = .noProposals := rfl
    rw [h0]
    refine ⟨by simp [isFailure], by simp, ?_⟩
    intro ws hws
    cases hws
  · rw [resolve_eq props vm tb pick hnd hne]
    dsimp only
    have hn1 : 1 ≤ (props.filter (fun p => cnt vm (pid p) == maxVotes props vm)).length := by
      have hmapne : props.map (fun p => cnt vm (pid p)) ≠ [] := by
        cases props with
        | nil => exact absurd rfl hne
        | cons a t => simp
      have hmem := listMax_mem _ hmapne
      obtain ⟨p, hp, hpmax⟩ := List.mem_map.mp hmem
      have hpf : p ∈ props.filter (fun p => cnt vm (pid p) == maxVotes props vm) :=
        List.mem_filter.mpr ⟨hp, beq_iff_eq.mpr hpmax⟩
      have := List.length_pos.mpr (List.ne_nil_of_mem hpf)
      omega
    by_cases hguard :
        ((((props.filter (fun p => cnt vm (pid p) == maxVotes props vm)).map
          pid).length != 1) && (tb == "none")) = true
    · rw [if_pos hguard]
      rw [Bool.and_eq_true] at hguard
      obtain ⟨hlen, htb⟩ := hguard
      have htb2 : tb = "none" := beq_iff_eq.mp htb
      have hlen2 :
          (props.filter (fun p => cnt vm (pid p) == maxVotes props vm)).length ≠ 1 := by
        rw [List.length_map] at hlen
        exact bne_iff_ne.mp hlen
      have h2 : 2 ≤ (props.filter (fun p => cnt vm (pid p) == maxVotes props vm)).length := by
        omega
      refine ⟨?_, ?_, ?_⟩
      · constructor
        · intro _
          exact Or.inr ⟨htb2, h2⟩
        · intro _
          rfl
      · constructor
        · intro h
          cases h
        · intro h
          exact absurd h hne
      · intro ws hws k
        injection hws with hws
        subst hws
        constructor
        · intro hk
          obtain ⟨p, hpf, hpk⟩ := List.mem_map.mp hk
          obtain ⟨hp, hatt⟩ := List.mem_filter.mp hpf
          exact ⟨p, hp, hpk, beq_iff_eq.mp hatt⟩
        · rintro ⟨p, hp, rfl, hmax⟩
          exact List.mem_map_of_mem pid
            (List.mem_filter.mpr ⟨hp, beq_iff_eq.mpr hmax⟩)
    · rw [if_neg hguard]
      refine ⟨?_, ?_, ?_⟩
      · constructor
        · intro h
          simp [isFailure] at h
        · rintro (h | ⟨htb, h2⟩)
          · exact absurd h hne
          · exfalso
            apply hguard
            rw [Bool.and_eq_true]
            refine ⟨?_, beq_iff_eq.mpr htb⟩
            rw [List.length_map]
            exact bne_iff_ne.mpr (by omega)
      · constructor
        · intro h
          cases h
        · intro h
          exact absurd h hne
      · intro ws hws
        cases hws

/-- Witness for C4: two proposals tied at one vote each with tiebreaker
`none` fail, carrying both ids. -/
theorem c4_witness :
    isFailure (resolveLawVotes [propLate, propEarly] tieVotes "none" constPick) = true :=
  (c4_resolve_failure_iff [propLate, propEarly] tieVotes "none" constPick
      (by decide)).1.mpr (Or.inr ⟨rfl, by decide⟩)

theorem voidLawDb_map (db : List ELaw) (i : String)
    (hnd : (db.map (fun l => l.lid)).Nodup) :
    voidLawDb db i = db.map (fun l =>
      if l.lid = i then { l with isActive := false, voidedBy := none } else l) := by
  induction db with
  | nil => rfl
  | cons l rest ih =>
    rw [List.map_cons, List.nodup_cons] at hnd
    by_cases h : (l.lid == i) = true
    · have hl : l.lid = i := beq_iff_eq.mp h
      simp only [voidLawDb, h, if_true, List.map_cons, if_pos hl]
      congr 1
      have : ∀ x ∈ rest,
          (if x.lid = i then ({ x with isActive := false, voidedBy := none } : ELaw)
           else x) = x := by
        intro x hx
        rw [if_neg]
        intro hxi
        exact hnd.1 ((hxi.trans hl.symm) ▸ List.mem_map_of_mem (fun l => l.lid) hx)
      exact ((List.map_congr_left this).trans (List.map_id rest)).symm
    · have hl : ¬ l.lid = i := fun he => h (beq_iff_eq.mpr he)
      simp only [voidLawDb, h, Bool.false_eq_true, if_false, List.map_cons, if_neg hl]
      rw [ih hnd.2]

theorem expireLawDb_map (db : List ELaw) (i : String)
    (hnd : (db.map (fun l => l.lid)).Nodup) :
    expireLawDb db i = db.map (fun l =>
      if l.lid = i then { l with isActive := false } else l) := by
  induction db with
  | nil => rfl
  | cons l rest ih =>
    rw [List.map_cons, List.nodup_cons] at hnd
    by_cases h : (l.lid == i) = true
    · have hl : l.lid = i := beq_iff_eq.mp h
      simp only [expireLawDb, h, if_true, List.map_cons, if_pos hl]
      congr 1
      have : ∀ x ∈ rest,
          (if x.lid = i then ({ x with isActive := false } : ELaw) else x) = x := by
        intro x hx
        rw [if_neg]
        intro hxi
        exact hnd.1 ((hxi.trans hl.symm) ▸ List.mem_map_of_mem (fun l => l.lid) hx)
      exact ((List.map_congr_left this).trans (List.map_id rest)).symm
    · have hl : ¬ l.lid = i := fun he => h (beq_iff_eq.mpr he)
      simp only [expireLawDb, h, Bool.false_eq_true, if_false, List.map_cons, if_neg hl]
      rw [ih hnd.2]

theorem map_lid_update (db : List ELaw) (g : ELaw → ELaw)
    (hg : ∀ l, (g l).lid = l.lid) (p : ELaw → Prop) [DecidablePred p] :
    (db.map (fun l => if p l then g l else l)).map (fun l => l.lid) =
      db.map (fun l => l.lid) := by
  rw [List.map_map]
  apply List.map_congr_left
  intro l _
  dsimp only [Function.comp]
  by_cases h : p l
  · rw [if_pos h, hg]
  · rw [if_neg h]

theorem fold_voidLawDb (ids : List String) (db : List ELaw)
    (hnd : (db.map (fun l => l.lid)).Nodup) :
    ids.foldl (fun d i => voidLawDb d i) db =
      db.map (fun l =>
        if l.lid ∈ ids then { l with isActive := false, voidedBy := none } else l) := by
  induction ids generalizing db with
  | nil =>
    simp only [List.foldl_nil, List.not_mem_nil, if_false]
    exact (List.map_id db).symm
  | cons i ids ih =>
    rw [List.foldl_cons, voidLawDb_map db i hnd]
    have hnd2 : ((db.map (fun l =>
        if l.lid = i then { l with isActive := false, voidedBy := none } else l)).map
        (fun l => l.lid)).Nodup := by
      rw [map_lid_update db
        (fun l => { l with isActive := false, voidedBy := none })
        (fun l => rfl) (fun l => l.lid = i)]
      exact hnd
    rw [ih _ hnd2, List.map_map]
    apply List.map_congr_left
    intro l _
    dsimp only [Function.comp]
    by_cases h : l.lid = i
    · rw [if_pos h]
      by_cases h2 : (({ l with isActive := false, voidedBy := none } : ELaw).lid ∈ ids)
      · rw [if_pos h2, if_pos (List.mem_cons.mpr (Or.inl h))]
      · rw [if_neg h2, if_pos (List.mem_cons.mpr (Or.inl h))]
    · rw [if_neg h]
      by_cases h2 : l.lid ∈ ids
      · rw [if_pos h2, if_pos (List.mem_cons.mpr (Or.inr h2))]
      · rw [if_neg h2, if_neg]
        intro hc
        rcases List.mem_cons.mp hc with hc | hc
        · exact h hc
        · exact h2 hc

theorem fold_expireLawDb (ids : List String) (db : List ELaw)
    (hnd : (db.map (fun l => l.lid)).Nodup) :
    ids.foldl (fun d i => expireLawDb d i) db =
      db.map (fun l => if l.lid ∈ ids then { l with isActive := false } else l) := by
  induction ids generalizing db with
  | nil =>
    simp only [List.foldl_nil, List.not_mem_nil, if_false]
    exact (List.map_id db).symm
  | cons i ids ih =>
    rw [List.foldl_cons, expireLawDb_map db i hnd]
    have hnd2 : ((db.map (fun l =>
        if l.lid = i then { l with isActive := false } else l)).map
        (fun l => l.lid)).Nodup := by
      rw [map_lid_update db (fun l => { l with isActive := false })
        (fun l => rfl) (fun l => l.lid = i)]
      exact hnd
    rw [ih _ hnd2, List.map_map]
    apply List.map_congr_left
    intro l _
    dsimp only [Function.comp]
    by_cases h : l.lid = i
    · rw [if_pos h]
      by_cases h2 : (({ l with isActive := false } : ELaw).lid ∈ ids)
      · rw [if_pos h2, if_pos (List.mem_cons.mpr (Or.inl h))]
      · rw [if_neg h2, if_pos (List.mem_cons.mpr (Or.inl h))]
    · rw [if_neg h]
      by_cases h2 : l.lid ∈ ids
      · rw [if_pos h2, if_pos (List.mem_cons.mpr (Or.inr h2))]
      · rw [if_neg h2, if_neg]
        intro hc
        rcases List.mem_cons.mp hc with hc | hc
        · exact h hc
        · exact h2 hc

theorem mem_filter_map_lid (db : List ELaw) (q : ELaw → Bool) (l : ELaw)
    (hl : l ∈ db) (hnd : (db.map (fun x => x.lid)).Nodup) :
    l.lid ∈ (db.filter q).map (fun x => x.lid) ↔ q l = true := by
  constructor
  · intro h
    obtain ⟨x, hxf, hxl⟩ := List.mem_map.mp h
    obtain ⟨hxdb, hxq⟩ := List.mem_filter.mp hxf
    have := List.inj_on_of_nodup_map hnd hxdb hl hxl
    exact this ▸ hxq
  · intro h
    exact List.mem_map_of_mem (fun x => x.lid) (List.mem_filter.mpr ⟨hl, h⟩)

theorem filter_active_comm (db : List ELaw) (cond : ELaw → Bool) :
    (db.filter (fun l => l.isActive)).filter cond =
      db.filter (fun l => l.isActive && cond l) := by
  rw [List.filter_filter]
  exact List.filter_congr (fun a _ => Bool.and_comm (cond a) a.isActive)

/-- Claim C9 (amended): with distinct law ids, the expire-check marks an
active law inactive exactly when `currentRound - enactedRound` is at
least the law's effective duration, where the effective duration is the
stored duration except that a missing or zero value counts as the
default 3 (`law.duration or 3`); the update touches only `is_active`, so
the law is expired, never voided (`voided_by` is untouched), and no law
is removed. -/
theorem c9_expire_amended (db : List ELaw) (round : ℤ)
    (hnd : (db.map (fun l => l.lid)).Nodup) :
    (checkLawExpiration db round).1 =
      db.map (fun l =>
        if l.isActive && decide (effDuration l.duration ≤ round - l.enactedRound) then
          { l with isActive := false }
        else l) := by
  unfold checkLawExpiration
  dsimp only
  rw [filter_active_comm db (fun l => decide (effDuration l.duration ≤ round - l.enactedRound))]
  rw [← List.foldl_map (fun l : ELaw => l.lid) (fun d i => expireLawDb d i)]
  rw [fold_expireLawDb _ db hnd]
  apply List.map_congr_left
  intro l hl
  by_cases hc : (l.isActive &&
      decide (effDuration l.duration ≤ round - l.enactedRound)) = true
  · rw [if_pos ((mem_filter_map_lid db _ l hl hnd).mpr hc), if_pos hc]
  · rw [if_neg (fun hmem => hc ((mem_filter_map_lid db _ l hl hnd).mp hmem)),
      if_neg (fun h => hc h)]

/-- Witness for C9: the spec scenario — a law enacted at round 2 with
duration 3 survives the expire-check at round 4 and is inactive after
the check at round 5, with `voided_by` still unset. -/
theorem c9_witness :
    (checkLawExpiration [scenLaw] 4).1 = [scenLaw] ∧
      (checkLawExpiration [scenLaw] 5).1 =
        [⟨"S", some "economic", some "resource_tax", some "trade", [],
          false, none, 2, some 3⟩] :=
  ⟨(c9_expire_amended [scenLaw] 4 (by decide)).trans (by decide),
   (c9_expire_amended [scenLaw] 5 (by decide)).trans (by decide)⟩

/-- Counterexample to C9 as stated: a law with stored duration 0,
enacted at round 5 and checked at round 5, satisfies
`currentRound - enactedRound ≥ durationRounds` (0 ≥ 0) yet stays active,
because the code evaluates `law.duration or 3` and treats the stored 0
as 3. -/
theorem c9_counterexample :
    (checkLawExpiration [zeroDurLaw] 5).1 = [zeroDurLaw] ∧
      zeroDurLaw.duration = some 0 ∧ zeroDurLaw.isActive = true ∧
      ((0 : ℤ) ≤ 5 - zeroDurLaw.enactedRound) := by
  refine ⟨by decide, rfl, rfl, by decide⟩

/-- Claim C1 (amended): with distinct law ids, the resolve endpoint's
enactment step marks every active law that the Conflict Detector flags
as inactive with its voided-by reference left unset (`void_law` is
invoked without a voiding law id, so `voided_by` becomes `None`, not the
new law's id), appends exactly one new enacted law that is active with
the given round (and default duration 3), and conserves the law count:
no law disappears without being marked inactive. -/
theorem c1_enact_amended (db : List ELaw) (w : PropRec) (round : ℤ)
    (newId : String) (hnd : (db.map (fun l => l.lid)).Nodup) :
    (enactWinning db w round newId).1 =
      db.map (fun l =>
        if l.isActive && conflictCond (propToDict w) (elawToDict l) then
          { l with isActive := false, voidedBy := none }
        else l) ++ [newEnactedLaw w round newId] ∧
    (enactWinning db w round newId).1.length = db.length + 1 ∧
    (newEnactedLaw w round newId).isActive = true ∧
    (newEnactedLaw w round newId).enactedRound = round ∧
    (newEnactedLaw w round newId).voidedBy = none := by
  have hmain : (enactWinning db w round newId).1 =
      db.map (fun l =>
        if l.isActive && conflictCond (propToDict w) (elawToDict l) then
          { l with isActive := false, voidedBy := none }
        else l) ++ [newEnactedLaw w round newId] := by
    unfold enactWinning
    dsimp only
    congr 1
    rw [checkLawConflicts_eq_filter, List.filter_map, List.foldl_map]
    have hstep : (fun (d : List ELaw) (l : ELaw) =>
        match (elawToDict l).idOpt with
        | some i => voidLawDb d i
        | none => d) = fun d l => voidLawDb d l.lid := by
      rfl
    rw [hstep]
    have hcomp : (conflictCond (propToDict w) ∘ elawToDict) =
        fun l => conflictCond (propToDict w) (elawToDict l) := rfl
    rw [hcomp]
    rw [filter_active_comm db (fun l => conflictCond (propToDict w) (elawToDict l))]
    rw [← List.foldl_map (fun l : ELaw => l.lid) (fun d i => voidLawDb d i)]
    rw [fold_voidLawDb _ db hnd]
    apply List.map_congr_left
    intro l hl
    by_cases hc : (l.isActive && conflictCond (propToDict w) (elawToDict l)) = true
    · rw [if_pos ((mem_filter_map_lid db _ l hl hnd).mpr hc), if_pos hc]
    · rw [if_neg (fun hmem => hc ((mem_filter_map_lid db _ l hl hnd).mp hmem)),
        if_neg (fun h => hc h)]
  refine ⟨hmain, ?_, rfl, rfl, rfl⟩
  rw [hmain]
  rw [List.length_append, List.length_map]
  rfl

/-- Witness for C1's amended statement at a concrete database. -/
theorem c1_witness :
    (enactWinning [oldLaw] winProp 2 "NEW").1.length = 1 + 1 := by
  have h := c1_enact_amended [oldLaw] winProp 2 "NEW" (by decide)
  simpa using h.2.1

/-- Counterexample to C1 as stated: one active conflicting law; after
the enactment flow it is marked inactive, but its `voided_by` is `None`,
not the newly enacted law's id (the endpoint calls `void_law` without a
`voided_by` argument — indeed the new law's id does not yet exist at
voiding time). -/
theorem c1_counterexample :
    (enactWinning [oldLaw] winProp 2 "NEW").1 =
      [⟨"OLD", some "economic", some "resource_tax", some "trade",
        [("RESOURCE_TYPE", .str "Neutronium"), ("TAX_PERCENTAGE", .intStr "15" 15)],
        false, none, 1, some 3⟩,
       newEnactedLaw winProp 2 "NEW"] ∧
    (enactWinning [oldLaw] winProp 2 "NEW").2 = 1 ∧
    (none : Option String) ≠ some "NEW" := by
  refine ⟨by decide, by decide, by decide⟩

theorem containsSub_cons (pat : List Char) (c : Char) (rest : List Char) :
    containsSub pat (c :: rest) =
      (pat.isPrefixOf (c :: rest) || containsSub pat rest) := rfl

theorem containsSub_nil_pat (pt : List Char) :
    containsSub ('[' :: pt) [] = false := rfl

theorem prefix_self_append (l t : List Char) : l.isPrefixOf (l ++ t) = true := by
  induction l with
  | nil => simp [List.isPrefixOf]
  | cons a l2 ih => simp [List.isPrefixOf, ih]

theorem cons_isPrefixOf_same (a : Char) (as bs : List Char) :
    (a :: as).isPrefixOf (a :: bs) = as.isPrefixOf bs := by
  simp [List.isPrefixOf]

theorem pref_name_eq :
    ∀ (a b w : List Char), ']' ∉ a → ']' ∉ b →
      (a ++ [']']).isPrefixOf (b ++ ']' :: w) = true → a = b := by
  intro a
  induction a with
  | nil =>
    intro b w _ hb h
    cases b with
    | nil => rfl
    | cons c b2 =>
      exfalso
      simp only [List.nil_append, List.cons_append, List.isPrefixOf,
        Bool.and_eq_true, beq_iff_eq] at h
      exact hb (h.1 ▸ List.mem_cons_self c b2)
  | cons x a2 ih =>
    intro b w ha hb h
    cases b with
    | nil =>
      exfalso
      simp only [List.cons_append, List.nil_append, List.isPrefixOf,
        Bool.and_eq_true, beq_iff_eq] at h
      exact ha (h.1 ▸ List.mem_cons_self x a2)
    | cons c b2 =>
      simp only [List.cons_append, List.isPrefixOf, Bool.and_eq_true,
        beq_iff_eq] at h
      have hx : x = c := h.1
      have ha2 : ']' ∉ a2 := fun hm => ha (List.mem_cons_of_mem x hm)
      have hb2 : ']' ∉ b2 := fun hm => hb (List.mem_cons_of_mem c hm)
      rw [hx, ih b2 w ha2 hb2 h.2]

theorem phPat_not_prefix (k K : String) (w : List Char) (hk : goodName k)
    (hK : goodName K) (hne : k.data ≠ K.data) :
    (phPat k).isPrefixOf (phPat K ++ w) = false := by
  rw [Bool.eq_false_iff]
  intro h
  apply hne
  have hshape : phPat K ++ w = '[' :: (K.data ++ ']' :: w) := by
    unfold phPat
    simp
  rw [hshape] at h
  unfold phPat at h
  rw [cons_isPrefixOf_same] at h
  exact pref_name_eq k.data K.data w hk.2 hK.2 h

theorem contains_through_clean (pt : List Char) :
    ∀ (xs ys : List Char), '[' ∉ xs →
      containsSub ('[' :: pt) (xs ++ ys) = containsSub ('[' :: pt) ys := by
  intro xs
  induction xs with
  | nil => intro ys _; rfl
  | cons c xs2 ih =>
    intro ys hc
    have hcne : c ≠ '[' := fun h => hc (h ▸ List.mem_cons_self c xs2)
    rw [List.cons_append, containsSub_cons]
    have hbe : (('[' : Char) == c) = false := beq_eq_false_iff_ne.mpr (Ne.symm hcne)
    have hpre : ('[' :: pt).isPrefixOf (c :: (xs2 ++ ys)) = false := by
      simp [List.isPrefixOf, hbe]
    rw [hpre, Bool.false_or]
    exact ih ys (fun h => hc (List.mem_cons_of_mem c h))

theorem contains_mono_append (pat xs ys : List Char) :
    containsSub pat ys = true → containsSub pat (xs ++ ys) = true := by
  induction xs with
  | nil => intro h; exact h
  | cons c xs2 ih =>
    intro h
    rw [List.cons_append, containsSub_cons, ih h, Bool.or_true]

theorem replace_through_clean (pt rep : List Char) :
    ∀ (xs ys : List Char), '[' ∉ xs →
      listReplace (xs ++ ys) ('[' :: pt) rep = xs ++ listReplace ys ('[' :: pt) rep := by
  intro xs
  induction xs with
  | nil => intro ys _; rfl
  | cons c xs2 ih =>
    intro ys hc
    have hcne : c ≠ '[' := fun h => hc (h ▸ List.mem_cons_self c xs2)
    rw [List.cons_append, listReplace_cons]
    have hpre : ('[' :: pt).isPrefixOf (c :: (xs2 ++ ys)) = false := by
      simp [List.isPrefixOf]
      intro h
      exact absurd h.symm hcne
    rw [hpre]
    simp only [Bool.false_eq_true, if_false]
    rw [ih ys (fun h => hc (List.mem_cons_of_mem c h)), List.cons_append]

theorem brack_append_clean (S : List String) (v w : List Char) (hv : '[' ∉ v)
    (hw : Brack S w) : Brack S (v ++ w) := by
  induction v with
  | nil => exact hw
  | cons c v2 ih =>
    rw [List.cons_append]
    exact Brack.chr c _ (fun h => hv (h ▸ List.mem_cons_self c v2))
      (ih (fun h => hv (List.mem_cons_of_mem c h)))

theorem brack_no_bracket (S : List String) (s : List Char) (hb : Brack S s)
    (hno : ∀ K ∈ S, containsSub (phPat K) s = false) : '[' ∉ s := by
  induction hb with
  | nil => simp
  | chr c rest hc h ih =>
    intro hm
    rcases List.mem_cons.mp hm with hm | hm
    · exact hc hm.symm
    · refine absurd hm (ih ?_)
      intro K hK
      have := hno K hK
      rw [containsSub_cons, Bool.or_eq_false_iff] at this
      exact this.2
  | ph K rest hK h ih =>
    exfalso
    have hfalse := hno K hK
    have htrue : containsSub (phPat K) (phPat K ++ rest) = true := by
      calc containsSub (phPat K) (phPat K ++ rest)
          = ((phPat K).isPrefixOf (phPat K ++ rest) ||
              containsSub (phPat K) ((K.data ++ [']']) ++ rest)) := rfl
        _ = true := by rw [prefix_self_append, Bool.true_or]
    rw [htrue] at hfalse
    cases hfalse

theorem no_bracket_no_contains (pt : List Char) :
    ∀ (s : List Char), '[' ∉ s → containsSub ('[' :: pt) s = false := by
  intro s
  induction s with
  | nil => intro _; rfl
  | cons c rest ih =>
    intro hc
    have hcne : c ≠ '[' := fun h => hc (h ▸ List.mem_cons_self c rest)
    rw [containsSub_cons]
    have hbe : (('[' : Char) == c) = false := beq_eq_false_iff_ne.mpr (Ne.symm hcne)
    have hpre : ('[' :: pt).isPrefixOf (c :: rest) = false := by
      simp [List.isPrefixOf, hbe]
    rw [hpre, Bool.false_or]
    exact ih (fun h => hc (List.mem_cons_of_mem c h))

theorem brackCheckFuel_sound :
    ∀ (f : ℕ) (S : List String) (s : List Char),
      brackCheckFuel f S s = true → Brack S s := by
  intro f
  induction f with
  | zero =>
    intro S s h
    have : s = [] := by
      cases s with
      | nil => rfl
      | cons c t => exact absurd h (by simp [brackCheckFuel])
    subst this
    exact Brack.nil
  | succ f ih =>
    intro S s h
    cases s with
    | nil => exact Brack.nil
    | cons c rest =>
      by_cases hc : c = '['
      · subst hc
        rw [show brackCheckFuel (f + 1) S ('[' :: rest) =
            S.any (fun K => (K.data ++ [']']).isPrefixOf rest &&
              brackCheckFuel f S (rest.drop (K.data.length + 1))) from by
          simp [brackCheckFuel]] at h
        obtain ⟨K, hKS, hCond⟩ := List.any_eq_true.mp h
        rw [Bool.and_eq_true] at hCond
        obtain ⟨t, ht⟩ := List.isPrefixOf_iff_prefix.mp hCond.1
        have hdrop : rest.drop (K.data.length + 1) = t := by
          rw [← ht]
          have : (K.data ++ [']']).length = K.data.length + 1 := by simp
          rw [← this, List.drop_left]
        have hbr : Brack S t := ih S t (hdrop ▸ hCond.2)
        have hshape : ('[' :: rest : List Char) = phPat K ++ t := by
          rw [← ht]
          unfold phPat
          simp
        rw [hshape]
        exact Brack.ph K t hKS hbr
      · rw [show brackCheckFuel (f + 1) S (c :: rest) = brackCheckFuel f S rest from by
          simp [brackCheckFuel, hc]] at h
        exact Brack.chr c rest hc (ih S rest h)

theorem replace_preserves (S : List String) (hS : ∀ K ∈ S, goodName K)
    (k : String) (hk : goodName k) (v : List Char) (hv : '[' ∉ v) :
    ∀ (s : List Char), Brack S s →
      ∀ (done : List String), (∀ d ∈ done, goodName d) →
        (∀ d ∈ done, containsSub (phPat d) s = false) →
        Brack S (listReplace s (phPat k) v) ∧
        (∀ d ∈ done, containsSub (phPat d) (listReplace s (phPat k) v) = false) ∧
        containsSub (phPat k) (listReplace s (phPat k) v) = false := by
  intro s hb
  induction hb with
  | nil =>
    intro done _ _
    refine ⟨?_, ?_, ?_⟩
    · rw [show listReplace [] (phPat k) v = [] from listReplace_nil _ _]
      exact Brack.nil
    · intro d _
      rw [show listReplace [] (phPat k) v = [] from listReplace_nil _ _]
      rfl
    · rw [show listReplace [] (phPat k) v = [] from listReplace_nil _ _]
      rfl
  | chr c rest hc h ih =>
    intro done hgood hdone
    have hbe : (('[' : Char) == c) = false :=
      beq_eq_false_iff_ne.mpr (fun he => hc he.symm)
    have hpre : (phPat k).isPrefixOf (c :: rest) = false := by
      unfold phPat
      simp [List.isPrefixOf, hbe]
    have hrw : listReplace (c :: rest) (phPat k) v =
        c :: listReplace rest (phPat k) v := by
      rw [show phPat k = '[' :: (k.data ++ [']']) from rfl, listReplace_cons]
      rw [show (('[' :: (k.data ++ [']'])) : List Char) = phPat k from rfl, hpre]
      simp
    have hdone2 : ∀ d ∈ done, containsSub (phPat d) rest = false := by
      intro d hd
      have := hdone d hd
      rw [containsSub_cons, Bool.or_eq_false_iff] at this
      exact this.2
    obtain ⟨hB, hD, hK⟩ := ih done hgood hdone2
    rw [hrw]
    refine ⟨Brack.chr c _ hc hB, ?_, ?_⟩
    · intro d hd
      rw [containsSub_cons, Bool.or_eq_false_iff]
      have hdb : (phPat d).isPrefixOf
          (c :: listReplace rest (phPat k) v) = false := by
        unfold phPat
        simp [List.isPrefixOf, hbe]
      exact ⟨hdb, hD d hd⟩
    · rw [containsSub_cons, Bool.or_eq_false_iff]
      have hkb : (phPat k).isPrefixOf
          (c :: listReplace rest (phPat k) v) = false := by
        unfold phPat
        simp [List.isPrefixOf, hbe]
      exact ⟨hkb, hK⟩
  | ph K rest hKS h ih =>
    intro done hgood hdone
    have hKg : goodName K := hS K hKS
    have hdone2 : ∀ d ∈ done, containsSub (phPat d) rest = false := by
      intro d hd
      have hfull := hdone d hd
      by_cases hcr : containsSub (phPat d) rest = true
      · rw [contains_mono_append (phPat d) (phPat K) rest hcr] at hfull
        cases hfull
      · exact Bool.eq_false_iff.mpr hcr
    obtain ⟨hB, hD, hK2⟩ := ih done hgood hdone2
    by_cases hkK : k.data = K.data
    · have hkeq : k = K := by
        cases k
        cases K
        exact congrArg String.mk hkK
      subst hkeq
      have hrw : listReplace (phPat k ++ rest) (phPat k) v =
          v ++ listReplace rest (phPat k) v := by
        have h1 : phPat k ++ rest = '[' :: ((k.data ++ [']']) ++ rest) := by
          unfold phPat
          simp
        conv_lhs => rw [h1]
        rw [show phPat k = '[' :: (k.data ++ [']']) from rfl]
        rw [listReplace_cons, cons_isPrefixOf_same, prefix_self_append]
        simp only [if_true]
        rw [List.length_cons, List.drop_succ_cons, List.drop_left]
      rw [hrw]
      refine ⟨brack_append_clean S v _ hv hB, ?_, ?_⟩
      · intro d hd
        rw [show phPat d = '[' :: (d.data ++ [']']) from rfl,
          contains_through_clean _ v _ hv]
        exact hD d hd
      · rw [show phPat k = '[' :: (k.data ++ [']']) from rfl,
          contains_through_clean _ v _ hv]
        exact hK2
    · have hclean : '[' ∉ (K.data ++ ([']'] : List Char)) := by
        intro hm
        rcases List.mem_append.mp hm with hm | hm
        · exact hKg.1 hm
        · simp at hm
      have hpre0 : ((k.data ++ [']'] : List Char)).isPrefixOf
          ((K.data ++ [']']) ++ rest) = false := by
        rw [Bool.eq_false_iff]
        intro hcontra
        have hasc : ((K.data ++ [']']) ++ rest : List Char) =
            K.data ++ ']' :: rest := by simp
        rw [hasc] at hcontra
        exact hkK (pref_name_eq _ _ _ hk.2 hKg.2 hcontra)
      have hrw : listReplace (phPat K ++ rest) (phPat k) v =
          phPat K ++ listReplace rest (phPat k) v := by
        have h1 : phPat K ++ rest = '[' :: ((K.data ++ [']']) ++ rest) := by
          unfold phPat
          simp
        conv_lhs => rw [h1]
        rw [show phPat k = '[' :: (k.data ++ [']']) from rfl]
        rw [listReplace_cons, cons_isPrefixOf_same, hpre0]
        simp only [Bool.false_eq_true, if_false]
        rw [replace_through_clean (k.data ++ [']']) v (K.data ++ [']']) rest hclean]
        unfold phPat
        simp
      rw [hrw]
      refine ⟨Brack.ph K _ hKS hB, ?_, ?_⟩
      · intro d hd
        by_cases hdK : d.data = K.data
        · exfalso
          have hdeq : d = K := by
            cases d
            cases K
            exact congrArg String.mk hdK
          subst hdeq
          have hfull := hdone d hd
          have htrue : containsSub (phPat d) (phPat d ++ rest) = true := by
            calc containsSub (phPat d) (phPat d ++ rest)
                = ((phPat d).isPrefixOf (phPat d ++ rest) ||
                    containsSub (phPat d) ((d.data ++ [']']) ++ rest)) := rfl
              _ = true := by rw [prefix_self_append, Bool.true_or]
          rw [htrue] at hfull
          cases hfull
        · have hshape : phPat K ++ listReplace rest (phPat k) v =
              '[' :: ((K.data ++ [']']) ++ listReplace rest (phPat k) v) := by
            unfold phPat
            simp
          rw [hshape, containsSub_cons, Bool.or_eq_false_iff]
          constructor
          · rw [← hshape]
            exact phPat_not_prefix d K _ (hgood d hd) hKg hdK
          · rw [show phPat d = '[' :: (d.data ++ [']']) from rfl,
              contains_through_clean _ (K.data ++ [']']) _ hclean]
            exact hD d hd
      · have hshape : phPat K ++ listReplace rest (phPat k) v =
            '[' :: ((K.data ++ [']']) ++ listReplace rest (phPat k) v) := by
          unfold phPat
          simp
        rw [hshape, containsSub_cons, Bool.or_eq_false_iff]
        constructor
        · rw [← hshape]
          exact phPat_not_prefix k K _ hk hKg hkK
        · rw [show phPat k = '[' :: (k.data ++ [']']) from rfl,
            contains_through_clean _ (K.data ++ [']']) _ hclean]
          exact hK2

theorem render_fold (S : List String) (hS : ∀ K ∈ S, goodName K) :
    ∀ (ps : Params) (s : List Char) (done : List String),
      Brack S s →
      (∀ d ∈ done, goodName d) →
      (∀ d ∈ done, containsSub (phPat d) s = false) →
      (∀ kv ∈ ps, goodName kv.1 ∧ '[' ∉ (pyStr kv.2).data) →
      Brack S (ps.foldl (fun text kv =>
        listReplace text (phPat kv.1) (pyStr kv.2).data) s) ∧
      (∀ d, (d ∈ done ∨ ∃ kv ∈ ps, kv.1 = d) →
        containsSub (phPat d) (ps.foldl (fun text kv =>
          listReplace text (phPat kv.1) (pyStr kv.2).data) s) = false) := by
  intro ps
  induction ps with
  | nil =>
    intro s done hb hgood hdone _
    refine ⟨hb, ?_⟩
    intro d hd
    rcases hd with hd | ⟨kv, hkv, _⟩
    · exact hdone d hd
    · cases hkv
  | cons kv rest ih =>
    intro s done hb hgood hdone hps
    have hk := (hps kv (List.mem_cons_self kv rest)).1
    have hv := (hps kv (List.mem_cons_self kv rest)).2
    obtain ⟨hB, hD, hK⟩ :=
      replace_preserves S hS kv.1 hk (pyStr kv.2).data hv s hb done hgood hdone
    have hgood2 : ∀ d ∈ done ++ [kv.1], goodName d := by
      intro d hd
      rcases List.mem_append.mp hd with hd | hd
      · exact hgood d hd
      · have : d = kv.1 := by simpa using hd
        exact this ▸ hk
    have hdone2 : ∀ d ∈ done ++ [kv.1],
        containsSub (phPat d)
          (listReplace s (phPat kv.1) (pyStr kv.2).data) = false := by
      intro d hd
      rcases List.mem_append.mp hd with hd | hd
      · exact hD d hd
      · have : d = kv.1 := by simpa using hd
        exact this ▸ hK
    obtain ⟨hB2, hC2⟩ := ih (listReplace s (phPat kv.1) (pyStr kv.2).data)
      (done ++ [kv.1]) hB hgood2 hdone2
      (fun q hq => hps q (List.mem_cons_of_mem kv hq))
    rw [List.foldl_cons]
    refine ⟨hB2, ?_⟩
    intro d hd
    apply hC2
    rcases hd with hd | ⟨q, hq, hqd⟩
    · exact Or.inl (List.mem_append_left _ hd)
    · rcases List.mem_cons.mp hq with rfl | hq2
      · exact Or.inl (List.mem_append_right _ (by simp [hqd.symm]))
      · exact Or.inr ⟨q, hq2, hqd⟩

theorem renderLawText_data (tid : String) (t : LawTemplate) (ps : Params)
    (hg : getTemplate tid = some t) :
    (renderLawText tid ps).data =
      ps.foldl (fun text kv => listReplace text (phPat kv.1) (pyStr kv.2).data)
        t.templateText.data := by
  unfold renderLawText
  rw [hg]
  dsimp only
  suffices key : ∀ (ps2 : Params) (s : String),
      (ps2.foldl (fun text kv =>
        pyReplace text ("[" ++ kv.1 ++ "]") (pyStr kv.2)) s).data =
      ps2.foldl (fun text kv =>
        listReplace text (phPat kv.1) (pyStr kv.2).data) s.data by
    exact key ps t.templateText
  intro ps2
  induction ps2 with
  | nil => intro s; rfl
  | cons kv rest ih =>
    intro s
    rw [List.foldl_cons, List.foldl_cons, ih]
    congr 1

theorem errors_foldl_ne_nil (m : Params) :
    ∀ (l : List ParamSpec) (e0 : List String),
      ((∃ pd ∈ l, paramErrors m pd ≠ []) ∨ e0 ≠ []) →
      l.foldl (fun e pd => e ++ paramErrors m pd) e0 ≠ [] := by
  intro l
  induction l with
  | nil =>
    intro e0 h
    rcases h with ⟨pd, hpd, _⟩ | h
    · cases hpd
    · exact h
  | cons pd l2 ih =>
    intro e0 h
    rw [List.foldl_cons]
    rcases h with ⟨q, hq, hne⟩ | h
    · rcases List.mem_cons.mp hq with rfl | hq2
      · apply ih
        right
        intro hcontra
        rw [List.append_eq_nil] at hcontra
        exact hne hcontra.2
      · exact ih _ (Or.inl ⟨q, hq2, hne⟩)
    · apply ih
      right
      intro hcontra
      rw [List.append_eq_nil] at hcontra
      exact h hcontra.1

theorem validate_covers (tid : String) (t : LawTemplate) (m : Params)
    (hg : getTemplate tid = some t) (hv : (validateParameters tid m).1 = true) :
    ∀ pd ∈ t.tparameters, ∃ kv ∈ m, kv.1 = pd.name := by
  intro pd hpd
  unfold validateParameters at hv
  rw [hg] at hv
  dsimp only at hv
  cases hget : pyGet m pd.name with
  | none =>
    exfalso
    have hne : paramErrors m pd ≠ [] := by
      unfold paramErrors
      rw [hget]
      intro hcontra
      cases hcontra
    have := errors_foldl_ne_nil m t.tparameters [] (Or.inl ⟨pd, hpd, hne⟩)
    rw [List.isEmpty_iff] at hv
    exact this hv
  | some v =>
    unfold pyGet at hget
    obtain ⟨kv, hfind, _⟩ := Option.map_eq_some'.mp hget
    have hp := List.find?_some hfind
    exact ⟨kv, List.mem_of_find?_eq_some hfind, beq_iff_eq.mp hp⟩

theorem catalog_brack_facts :
    ∀ t ∈ catalog,
      (∀ pd ∈ t.tparameters, goodName pd.name) ∧
      brackCheck (t.tparameters.map (fun pd => pd.name)) t.templateText.data = true := by
  set_option maxRecDepth 4000 in decide

/-- Claim C7 (amended): for every catalog template and every parameter map
that passes validation, if every supplied parameter name and every rendered
parameter value is bracket-free then the rendered law text contains no
remaining `[NAME]` placeholder token for any name whatsoever; rendering is a
pure function, so re-rendering the same inputs yields the identical string;
and the spec scenario holds: `resource_tax_law` with `RESOURCE_TYPE`
"Neutronium" and `TAX_PERCENTAGE` "15" renders the exact sentence.  (The
bracket-freeness proviso is necessary: a validated value that itself spells
a placeholder re-introduces it, see the counterexample.) -/
theorem c7_render_amended :
    (∀ (tid : String) (t : LawTemplate) (ps : Params),
        getTemplate tid = some t →
        (validateParameters tid ps).1 = true →
        (∀ kv ∈ ps, goodName kv.1 ∧ '[' ∉ (pyStr kv.2).data) →
        ∀ ph : String, containsSub (phPat ph) (renderLawText tid ps).data = false) ∧
    (∀ tid ps, renderLawText tid ps = renderLawText tid ps) ∧
    renderLawText "resource_tax_law" neutroniumParams =
      "Trading of Neutronium requires a tax payment of 15% to the Kokoro Conclave treasury." := by
  refine ⟨?_, fun _ _ => rfl, by decide⟩
  intro tid t ps hg hval hps ph
  have ht : t ∈ catalog := List.mem_of_find?_eq_some hg
  obtain ⟨hnames, hbc⟩ := catalog_brack_facts t ht
  have hS : ∀ K ∈ t.tparameters.map (fun pd => pd.name), goodName K := by
    intro K hK
    obtain ⟨pd, hpd, hname⟩ := List.mem_map.mp hK
    exact hname ▸ hnames pd hpd
  have hbrack : Brack (t.tparameters.map (fun pd => pd.name)) t.templateText.data :=
    brackCheckFuel_sound _ _ _ hbc
  have hcover := validate_covers tid t ps hg hval
  obtain ⟨hB, hC⟩ := render_fold (t.tparameters.map (fun pd => pd.name)) hS ps
    t.templateText.data [] hbrack (fun d hd => nomatch hd)
    (fun d hd => nomatch hd) hps
  rw [renderLawText_data tid t ps hg]
  have hnob : '[' ∉ ps.foldl (fun text kv =>
      listReplace text (phPat kv.1) (pyStr kv.2).data) t.templateText.data := by
    apply brack_no_bracket _ _ hB
    intro K hK
    apply hC
    obtain ⟨pd, hpd, hname⟩ := List.mem_map.mp hK
    obtain ⟨kv, hkv, hkvn⟩ := hcover pd hpd
    exact Or.inr ⟨kv, hkv, hkvn.trans hname⟩
  exact no_bracket_no_contains (ph.data ++ [']']) _ hnob

/-- Witness for C7 at the spec scenario: the rendered `resource_tax_law`
text carries no `[RESOURCE_TYPE]` token and equals the expected sentence. -/
theorem c7_witness :
    containsSub (phPat "RESOURCE_TYPE")
        (renderLawText "resource_tax_law" neutroniumParams).data = false ∧
      renderLawText "resource_tax_law" neutroniumParams =
        "Trading of Neutronium requires a tax payment of 15% to the Kokoro Conclave treasury." :=
  ⟨c7_render_amended.1 "resource_tax_law" _ neutroniumParams rfl (by decide)
      (by decide) "RESOURCE_TYPE",
    c7_render_amended.2.2⟩

/-- Counterexample for C7 as stated: the parameter map `quotaInj` passes
validation for `resource_quota_system`, yet its `PROGRAM_NAME` value spells
`[RESOURCE_TYPE]` and `str.replace` runs in dict insertion order, so the
rendered text still contains the declared placeholder `[RESOURCE_TYPE]`. -/
theorem c7_counterexample :
    (validateParameters "resource_quota_system" quotaInj).1 = true ∧
    "RESOURCE_TYPE" ∈ (declaredSpecs "resource_quota_system").map (fun pd => pd.name) ∧
    containsSub (phPat "RESOURCE_TYPE")
      (renderLawText "resource_quota_system" quotaInj).data = true := by
  refine ⟨by decide, by decide, by decide⟩
